import Mathlib

/-!
# Verification of the turbo.az crawl engine (shallow embedding)

This file embeds the resumable crawl engine of the repository
(`src/scripts/turbo_scraper.py`, with its near-duplicate
`src/turbo_scraper.py` and `src/turbo_scraper_async.py`) into Lean 4 and
proves/refutes the frozen specification claims about it.

Modelling conventions:
* Python strings are Lean `String`s (lists of unicode characters); byte-level
  encoding details are not modelled.
* Python `set`s are modelled as lists with insertion-order append and
  membership-based insertion (`python set` iteration order is unspecified;
  the model fixes insertion order, which no claim depends on).
* Network effects are oracles: a run is parametrised by functions giving the
  outcome of each fetch.  The wall-clock `timestamp` metadata field of the
  checkpoint dictionary is omitted (nondeterministic, referenced by no claim).
* Floating point delays are modelled as exact rationals (`ℚ`): the delays the
  code computes (`2 ** attempt`, `delay_between_requests`) are exactly
  representable for all inputs used here.
-/

namespace TurboAz

/-! ## Text cleaning (`TurboAzScraper.clean_text`)

`src/scripts/turbo_scraper.py:354-358` (identical in `src/turbo_scraper.py:239-243`):
```python
def clean_text(self, text: Optional[str]) -> str:
    if not text:
        return ""
    return ' '.join(text.strip().split())
```
`str.split()` with no separator splits on runs of unicode whitespace and
drops empty pieces; `str.strip()` removes leading and trailing whitespace.
-/

/-- Model of Python `str.split()` (no separator argument): `acc` holds the
characters of the word currently being read, reversed. -/
def splitAux : List Char → List Char → List (List Char)
  | [], acc => if acc.isEmpty then [] else [acc.reverse]
  | c :: cs, acc =>
    if c.isWhitespace then
      if acc.isEmpty then splitAux cs [] else acc.reverse :: splitAux cs []
    else splitAux cs (c :: acc)

/-- Python `text.split()`. -/
def pySplit (l : List Char) : List (List Char) := splitAux l []

/-- Python `text.strip()`: drop leading and trailing whitespace. -/
def pyStrip (l : List Char) : List Char :=
  ((l.dropWhile Char.isWhitespace).reverse.dropWhile Char.isWhitespace).reverse

/-- Python `' '.join(ws)`. -/
def joinSpace : List (List Char) → List Char
  | [] => []
  | [w] => w
  | w :: ws => w ++ ' ' :: joinSpace ws

/-- `TurboAzScraper.clean_text` (src/scripts/turbo_scraper.py:354-358):
`if not text: return ""` (both `None` and the empty string are falsy), else
`' '.join(text.strip().split())`. -/
def clean_text (t : Option String) : String :=
  match t with
  | none => ""
  | some s => if s = "" then "" else ⟨joinSpace (pySplit (pyStrip s.data))⟩

/-- The shape the claim asserts of `clean_text` results: no leading, no
trailing, and no two consecutive whitespace characters. -/
def cleanShape (l : List Char) : Prop :=
  (∀ c, l.head? = some c → c.isWhitespace = false) ∧
  (∀ c, l.getLast? = some c → c.isWhitespace = false) ∧
  List.Chain' (fun a b => a.isWhitespace = false ∨ b.isWhitespace = false) l

instance : DecidablePred cleanShape := fun l => by
  unfold cleanShape
  infer_instance

/-! ## Proxy pool (`TurboAzScraper.__init__` / `_get_current_proxy` / `_rotate_proxy`)

`src/scripts/turbo_scraper.py:167-179, 197-210`. -/

/-- The `proxy_url` constructor argument: a list, a single url, or `None`. -/
inductive ProxyArg
  | list (urls : List String)
  | single (url : String)
  | none

/-- The proxy-related fields of `TurboAzScraper`. -/
structure ProxyState where
  proxy_urls : List String
  proxy_rotation_enabled : Bool
  current_proxy_index : Nat
deriving DecidableEq, Repr

/-- `TurboAzScraper.__init__` (src/scripts/turbo_scraper.py:167-179): a list
enables rotation; a single url or `None` leaves rotation disabled. -/
def initProxy : ProxyArg → ProxyState
  | .list urls => ⟨urls, true, 0⟩
  | .single url => ⟨[url], false, 0⟩
  | .none => ⟨[], false, 0⟩

/-- `TurboAzScraper._get_current_proxy` (src/scripts/turbo_scraper.py:197-201):
`None` when no proxies are configured, else `proxy_urls[current_proxy_index]`. -/
def getCurrentProxy (s : ProxyState) : Option String :=
  if s.proxy_urls.isEmpty then none
  else s.proxy_urls.get? s.current_proxy_index

/-- `TurboAzScraper._rotate_proxy` (src/scripts/turbo_scraper.py:203-210):
a no-op unless rotation is enabled and there are at least two proxies, else
advances the cursor by one modulo the pool size. -/
def rotateProxy (s : ProxyState) : ProxyState :=
  if ¬ s.proxy_rotation_enabled ∨ s.proxy_urls.length ≤ 1 then s
  else { s with current_proxy_index := (s.current_proxy_index + 1) % s.proxy_urls.length }

/-- A finite sequence of `_rotate_proxy` calls. -/
def iterRotate : Nat → ProxyState → ProxyState
  | 0, s => s
  | n + 1, s => iterRotate n (rotateProxy s)

/-! ## Retrying fetch (`TurboAzScraper.fetch_page`)

`src/scripts/turbo_scraper.py:254-284`.  Each loop iteration first sleeps
`delay_between_requests`, then issues the request through the current proxy;
on status 403/429, `asyncio.TimeoutError` or `aiohttp.ClientError` it calls
`_rotate_proxy()`; other statuses and other exceptions are only logged.
After a failed attempt it sleeps `2 ** attempt` unless it was the last
attempt.  The model records the run as a trace of events and threads the
proxy state; the per-attempt outcome is an oracle indexed by the 1-based
attempt number. -/

/-- Classified outcome of one `session.get` call. -/
inductive FetchOutcome
  | success (body : String)
  /-- Response received with a non-200 HTTP status code. -/
  | status (code : Nat)
  /-- `asyncio.TimeoutError`. -/
  | timeout
  /-- `aiohttp.ClientError`. -/
  | connError
  /-- any other exception. -/
  | otherError
deriving DecidableEq, Repr

/-- Observable event of one `fetch_page` run. -/
inductive FetchEvent
  | sleep (d : ℚ)
  /-- the k-th request issued, 1-based. -/
  | attempt (k : Nat)
  /-- a call to `_rotate_proxy`. -/
  | rotate
deriving DecidableEq, Repr

/-- The retry loop of `fetch_page`, fuelled by the number of remaining
iterations (`fuel = retry_count - a` at every call); `a` is the number of
attempts already made.  Returns the result, the event trace and the final
proxy state. -/
def fetchPageAux (outcome : Nat → FetchOutcome) (retry_count : Nat) (delay : ℚ) :
    Nat → Nat → ProxyState → Option String × List FetchEvent × ProxyState
  | 0, _, ps => (none, [], ps)
  | fuel + 1, a, ps =>
    let pre : List FetchEvent := [.sleep delay, .attempt (a + 1)]
    let backoff : List FetchEvent :=
      if a + 1 < retry_count then [.sleep ((2 : ℚ) ^ a)] else []
    match outcome (a + 1) with
    | .success body => (some body, pre, ps)
    | .status code =>
      if code = 403 ∨ code = 429 then
        let r := fetchPageAux outcome retry_count delay fuel (a + 1) (rotateProxy ps)
        (r.1, pre ++ [.rotate] ++ backoff ++ r.2.1, r.2.2)
      else
        let r := fetchPageAux outcome retry_count delay fuel (a + 1) ps
        (r.1, pre ++ backoff ++ r.2.1, r.2.2)
    | .timeout =>
      let r := fetchPageAux outcome retry_count delay fuel (a + 1) (rotateProxy ps)
      (r.1, pre ++ [.rotate] ++ backoff ++ r.2.1, r.2.2)
    | .connError =>
      let r := fetchPageAux outcome retry_count delay fuel (a + 1) (rotateProxy ps)
      (r.1, pre ++ [.rotate] ++ backoff ++ r.2.1, r.2.2)
    | .otherError =>
      let r := fetchPageAux outcome retry_count delay fuel (a + 1) ps
      (r.1, pre ++ backoff ++ r.2.1, r.2.2)

/-- `TurboAzScraper.fetch_page(url, retry_count)` with
`delay = self.delay_between_requests` and proxy state `ps`. -/
def fetch_page (outcome : Nat → FetchOutcome) (retry_count : Nat) (delay : ℚ)
    (ps : ProxyState) : Option String × List FetchEvent × ProxyState :=
  fetchPageAux outcome retry_count delay retry_count 0 ps

/-- Total sleeping inserted between the request of attempt `k - 1` (or the
start of the call, for `k = 1`) and the request of attempt `k`; `0` if
attempt `k` never happens.  `acc` accumulates sleep seen since the last
request. -/
def delayBeforeAux : List FetchEvent → Nat → ℚ → ℚ
  | [], _, _ => 0
  | .sleep d :: tr, k, acc => delayBeforeAux tr k (acc + d)
  | .attempt j :: tr, k, acc => if j = k then acc else delayBeforeAux tr k 0
  | .rotate :: tr, k, acc => delayBeforeAux tr k acc

/-- Delay inserted before attempt `k` in trace `tr`. -/
def delayBefore (tr : List FetchEvent) (k : Nat) : ℚ := delayBeforeAux tr k 0

/-- Number of `_rotate_proxy` calls in a trace. -/
def countRotations (tr : List FetchEvent) : Nat :=
  tr.countP fun e => match e with | .rotate => true | _ => false

/-- The 1-based indices of the attempts actually made, in order. -/
def attemptIndices (tr : List FetchEvent) : List Nat :=
  tr.filterMap fun e => match e with | .attempt k => some k | _ => none

/-- The failure classes the SPEC says trigger a proxy rotation:
`HTTPStatus(403)`, `HTTPStatus(429)`, `Timeout`, `ConnectionError`
(spec §4.2); written from the spec's words, to be compared against the
trace of the code model. -/
def triggersRotation : FetchOutcome → Bool
  | .status c => c == 403 || c == 429
  | .timeout => true
  | .connError => true
  | .success _ => false
  | .otherError => false

/-! ## Data model: badges, items, listings, checkpoints -/

/-- Badge flags harvested from a listing card
(`extract_listing_urls`, src/scripts/turbo_scraper.py:331-338). -/
structure Badges where
  is_vip : Bool := false
  is_featured : Bool := false
  is_salon : Bool := false
  has_credit : Bool := false
  has_barter : Bool := false
  has_vin : Bool := false
deriving DecidableEq, Repr

/-- One work item as produced by `extract_listing_urls`
(src/scripts/turbo_scraper.py:340-343): the dict `{'url': ..., 'badges': ...}`. -/
structure Item where
  url : String
  badges : Badges
deriving DecidableEq, Repr

/-- The `CarListing` dataclass (src/scripts/turbo_scraper.py:39-91): every
field defaults to the empty string / `false`. -/
structure CarListing where
  listing_id : String := ""
  listing_url : String := ""
  title : String := ""
  price_azn : String := ""
  make : String := ""
  model : String := ""
  year : String := ""
  mileage : String := ""
  engine_volume : String := ""
  engine_power : String := ""
  fuel_type : String := ""
  transmission : String := ""
  drivetrain : String := ""
  body_type : String := ""
  color : String := ""
  seats_count : String := ""
  condition : String := ""
  market : String := ""
  is_new : String := ""
  city : String := ""
  seller_name : String := ""
  seller_phone : String := ""
  description : String := ""
  extras : String := ""
  views : String := ""
  updated_date : String := ""
  posted_date : String := ""
  is_vip : Bool := false
  is_featured : Bool := false
  is_salon : Bool := false
  has_credit : Bool := false
  has_barter : Bool := false
  has_vin : Bool := false
  image_urls : String := ""
  scraped_at : String := ""
deriving DecidableEq, Repr

/-- The checkpoint dictionary built by `CheckpointManager.save_checkpoint`
(src/scripts/turbo_scraper.py:104-110); the wall-clock `timestamp` field is
omitted (nondeterministic metadata, referenced by no claim). -/
structure Checkpoint where
  scraped_urls : List String
  pending_urls : List Item
  pages_completed : List Nat
  total_scraped : Nat
deriving DecidableEq, Repr

/-! ## Checkpoint file format (`json.dump` / `json.load`)

`save_checkpoint` (src/scripts/turbo_scraper.py:112-114) opens the
checkpoint file with mode `'w'` — truncating it — and serialises the dict
directly into it; there is no temporary file and no rename.  The on-disk
states the file passes through during a save are therefore exactly the
prefixes of the new serialisation.  The serialisation is modelled as a list
of tokens: a well-formed document is brace-delimited with length-prefixed
sections, so that `json.load`'s acceptance (a complete parse) and rejection
(truncated document) are mirrored by `decodeCheckpoint`. -/

/-- A token of the serialised checkpoint document. -/
inductive Tok
  | lbrace
  | rbrace
  | num (n : Nat)
  | str (s : String)
  | item (it : Item)
deriving DecidableEq, Repr

/-- Serialise a checkpoint. -/
def encodeCheckpoint (cp : Checkpoint) : List Tok :=
  [.lbrace, .num cp.scraped_urls.length] ++ cp.scraped_urls.map .str
    ++ [.num cp.pending_urls.length] ++ cp.pending_urls.map .item
    ++ [.num cp.pages_completed.length] ++ cp.pages_completed.map .num
    ++ [.num cp.total_scraped, .rbrace]

/-- Read `n` string tokens. -/
def readStrs : Nat → List Tok → Option (List String × List Tok)
  | 0, ts => some ([], ts)
  | n + 1, .str s :: ts =>
    match readStrs n ts with
    | some (ss, r) => some (s :: ss, r)
    | none => none
  | _ + 1, _ => none

/-- Read `n` item tokens. -/
def readItems : Nat → List Tok → Option (List Item × List Tok)
  | 0, ts => some ([], ts)
  | n + 1, .item it :: ts =>
    match readItems n ts with
    | some (its, r) => some (it :: its, r)
    | none => none
  | _ + 1, _ => none

/-- Read `n` number tokens. -/
def readNums : Nat → List Tok → Option (List Nat × List Tok)
  | 0, ts => some ([], ts)
  | n + 1, .num m :: ts =>
    match readNums n ts with
    | some (ms, r) => some (m :: ms, r)
    | none => none
  | _ + 1, _ => none

/-- Parse a serialised checkpoint document; `none` on any malformed or
truncated input (mirroring `json.load` raising, which `load_checkpoint`
catches). -/
def decodeCheckpoint (ts : List Tok) : Option Checkpoint :=
  match ts with
  | .lbrace :: .num n1 :: rest =>
    match readStrs n1 rest with
    | some (scraped, .num n2 :: rest2) =>
      match readItems n2 rest2 with
      | some (pending, .num n3 :: rest3) =>
        match readNums n3 rest3 with
        | some (pages, [.num total, .rbrace]) =>
          some ⟨scraped, pending, pages, total⟩
        | _ => none
      | _ => none
    | _ => none
  | _ => none

/-- The sequence of on-disk contents the checkpoint file passes through
while `save_checkpoint` writes checkpoint `cp` (open-with-truncate, then
append the serialisation): every prefix of the new serialisation, ending
with the complete document. -/
def writeStates (cp : Checkpoint) : List (List Tok) :=
  (List.range ((encodeCheckpoint cp).length + 1)).map
    fun k => (encodeCheckpoint cp).take k

/-- `CheckpointManager.load_checkpoint` (src/scripts/turbo_scraper.py:124-135):
`none` when the file does not exist; parse errors (and the subsequent
`checkpoint['total_scraped']` access) are caught and give `none`. -/
def load_checkpoint (file : Option (List Tok)) : Option Checkpoint :=
  match file with
  | none => none
  | some ts => decodeCheckpoint ts

/-! ## Detail-page parsing (`TurboAzScraper.parse_listing_page`)

`src/scripts/turbo_scraper.py:423-552` (the near-duplicate
`src/turbo_scraper.py:245-365` differs only in badge handling).  BeautifulSoup
navigation is abstracted: every `soup.find(...)` becomes an optional text and
every `find_all(...)` a list; malformed markup is exactly markup whose
elements are absent.  The Azeri keyword literals are copied byte-for-byte
from the source file (which stores them double-encoded).  No code path of
`parse_listing_page` raises on absent elements: each `find` result is
checked before use and the corresponding field keeps its default `""`. -/

/-- Python's `needle in hay` on strings. -/
def pyContains (hay needle : String) : Bool := decide (needle.data <:+: hay.data)

/-- Python `str.strip()` at `String` level. -/
def pyStripS (s : String) : String := ⟨pyStrip s.data⟩

/-- `re.search(r'\d+', text)`: the first maximal run of digits, if any. -/
def firstDigitRun : List Char → Option (List Char)
  | [] => none
  | c :: cs =>
    if c.isDigit then some (c :: cs.takeWhile Char.isDigit) else firstDigitRun cs

/-- Helper for `extract_listing_id`: the first `/autos/`-suffix that starts
with a digit yields those digits. -/
def firstDigitsAfterAutos : List String → String
  | [] => ""
  | p :: ps =>
    let ds := p.takeWhile Char.isDigit
    if ds = "" then firstDigitsAfterAutos ps else ds

/-- `TurboAzScraper.extract_listing_id` (src/scripts/turbo_scraper.py:349-352):
`re.search(r'/autos/(\d+)', url)`, empty string when there is no match. -/
def extract_listing_id (url : String) : String :=
  firstDigitsAfterAutos ((url.splitOn "/autos/").drop 1)

/-- One `div.product-properties__i` row: the optional
`label.product-properties__i-name` and `span.product-properties__i-value`
texts. -/
structure PropRow where
  label : Option String := none
  value : Option String := none
deriving DecidableEq, Repr

/-- One `div.shop-contact__param` row: the optional label text, and the
optional `a`- and `div`-variant value texts (the code prefers the `a` tag). -/
structure ShopRow where
  name : Option String := none
  value_a : Option String := none
  value_div : Option String := none
deriving DecidableEq, Repr

/-- The abstracted soup of one detail page: each component is present iff
the corresponding `find` succeeds on the real markup. -/
structure Markup where
  title : Option String := none
  price : Option String := none
  props : List PropRow := []
  description : Option String := none
  extras : Option (List String) := none
  seller_name : Option String := none
  shop_contact : Option (List ShopRow) := none
  stats : Option (List String) := none
  images : List (Option String) := []
deriving DecidableEq, Repr

/-- A detail page none of whose expected elements are found (total markup
mismatch). -/
def emptyMarkup : Markup := {}

/-- The body of the properties loop
(src/scripts/turbo_scraper.py:452-496): rows missing a label or value are
skipped; otherwise the label is matched (by substring) against the keyword
table and the corresponding field is set. -/
def applyProp (l : CarListing) (row : PropRow) : CarListing :=
  match row.label, row.value with
  | some lab, some v =>
    let label := clean_text (some lab)
    let value := clean_text (some v)
    if pyContains label "≈û…ôh…ôr" || pyContains label "City" then { l with city := value }
    else if pyContains label "Marka" || pyContains label "Make" then { l with make := value }
    else if pyContains label "Model" then { l with model := value }
    else if pyContains label "Buraxƒ±lƒ±≈ü ili" || pyContains label.toLower "year" then
      { l with year := value }
    else if pyContains label "Y√ºr√º≈ü" || pyContains label "Mileage" then
      { l with mileage := value }
    else if pyContains label "M√ºh…ôrrik" || pyContains label "Engine" then
      let engine_parts := value.splitOn "/"
      let l1 := match engine_parts.get? 0 with
        | some p0 => { l with engine_volume := clean_text (some p0) }
        | none => l
      let l2 := match engine_parts.get? 1 with
        | some p1 => { l1 with engine_power := clean_text (some p1) }
        | none => l1
      match engine_parts.get? 2 with
        | some p2 => { l2 with fuel_type := clean_text (some p2) }
        | none => l2
    else if pyContains label "S√ºr…ôtl…ôr qutusu" || pyContains label "Transmission" then
      { l with transmission := value }
    else if pyContains label "√ñt√ºr√ºc√º" || pyContains label "Drivetrain" then
      { l with drivetrain := value }
    else if pyContains label "Ban n√∂v√º" || pyContains label "Body" then
      { l with body_type := value }
    else if pyContains label "R…ông" || pyContains label "Color" then
      { l with color := value }
    else if pyContains label "Yerl…ôrin sayƒ±" || pyContains label "Seats" then
      { l with seats_count := value }
    else if pyContains label "V…ôziyy…ôti" || pyContains label "Condition" then
      { l with condition := value }
    else if pyContains label "bazar √º√ß√ºn yƒ±ƒüƒ±lƒ±b" || pyContains label "Market" then
      { l with market := value }
    else if pyContains label "Yeni" || pyContains label "New" then
      { l with is_new := value }
    else l
  | _, _ => l

/-- The body of the shop-contact loop (src/scripts/turbo_scraper.py:515-526):
the `a`-tag value is preferred, the label must contain `Turbo.az-da`
(case-insensitively for the second test). -/
def applyShopRow (l : CarListing) (row : ShopRow) : CarListing :=
  let value := match row.value_a with
    | some v => some v
    | none => row.value_div
  match row.name, value with
  | some lab, some v =>
    let label_text := clean_text (some lab)
    if pyContains label_text "Turbo.az-da" || pyContains label_text.toLower "turbo.az-da" then
      { l with posted_date := clean_text (some v) }
    else l
  | _, _ => l

/-- The body of the statistics loop (src/scripts/turbo_scraper.py:529-538). -/
def applyStat (l : CarListing) (li : String) : CarListing :=
  let text := clean_text (some li)
  if pyContains text "Yenil…ôndi" || pyContains text "Updated" then
    { l with updated_date := pyStripS (text.replace "Yenil…ôndi:" "") }
  else if pyContains text "Baxƒ±≈ülarƒ±n sayƒ±" || pyContains text "Views" then
    match firstDigitRun text.data with
    | some ds => { l with views := ⟨ds⟩ }
    | none => l
  else l

/-- The image-collection loop (src/scripts/turbo_scraper.py:540-548):
keep non-empty `src` attributes pointing into `turbo.azstatic.com` uploads,
rewrite thumbnail sizes to `full`, deduplicate preserving order. -/
def collectImages : List (Option String) → List String → List String
  | [], acc => acc
  | src? :: rest, acc =>
    match src? with
    | some src =>
      if (!(src == "")) && pyContains src "turbo.azstatic.com" && pyContains src "uploads" then
        let full := (src.replace "f460x343" "full").replace "f660x496" "full"
        if full ∈ acc then collectImages rest acc else collectImages rest (acc ++ [full])
      else collectImages rest acc
    | none => collectImages rest acc

/-- `TurboAzScraper.parse_listing_page(html, url, badges)`
(src/scripts/turbo_scraper.py:423-552); `now` stands for
`datetime.now().isoformat()`.  Total: absent markup elements leave the
dataclass defaults (empty strings) in place. -/
def parse_listing_page (m : Markup) (url : String) (badges : Option Badges)
    (now : String) : CarListing :=
  let l : CarListing := {}
  let l := { l with
    listing_id := extract_listing_id url
    listing_url := url
    scraped_at := now }
  let l := match badges with
    | some b => { l with
        is_vip := b.is_vip, is_featured := b.is_featured, is_salon := b.is_salon,
        has_credit := b.has_credit, has_barter := b.has_barter, has_vin := b.has_vin }
    | none => l
  let l := match m.title with
    | some t => { l with title := clean_text (some t) }
    | none => l
  let l := match m.price with
    | some p => { l with price_azn := clean_text (some p) }
    | none => l
  let l := m.props.foldl applyProp l
  let l := match m.description with
    | some d => { l with description := clean_text (some d) }
    | none => l
  let l := match m.extras with
    | some lis => { l with
        extras := String.intercalate " | " (lis.map fun li => clean_text (some li)) }
    | none => l
  let l := match m.seller_name with
    | some n => { l with seller_name := clean_text (some n) }
    | none => l
  let l := match m.shop_contact with
    | some rows => rows.foldl applyShopRow l
    | none => l
  let l := match m.stats with
    | some lis => lis.foldl applyStat l
    | none => l
  { l with image_urls := String.intercalate " | " ((collectImages m.images []).take 10) }

/-! ## The crawl run (`TurboAzScraper.scrape_all_pages`)

`src/scripts/turbo_scraper.py:601-680` (near-duplicate
`src/turbo_scraper.py:403-482`, which stores bare urls instead of
url+badges dicts).  Network effects and the signal flag are oracles:
`stop t` is the value of `self.should_stop` at the `t`-th read (reads are
counted by a clock in the state), `pageItems p` is what `scrape_page p`
returns (already `[]` when the index-page fetch fails), `ok u` tells whether
`fetch_page u` succeeds for a detail url, `page u` is the soup of the
fetched detail page, `phones u` the `fetch_phone_numbers` result (`""` on
any failure — its internal `try` swallows everything), and `now` stands for
`datetime.now().isoformat()`. -/

/-- Run oracles (environment). -/
structure RunEnv where
  pageItems : Nat → List Item
  ok : String → Bool
  page : String → Markup
  phones : String → String
  stop : Nat → Bool
  now : String

/-- The mutable scraper state (`self.scraped_urls`, `self.scraped_listings`),
the durable checkpoint file, the list of every checkpoint written so far
this run (`history`, for stating per-checkpoint invariants), and the
flag-read clock. -/
structure RunState where
  scraped_urls : List String
  scraped_listings : List CarListing
  pages_completed : List Nat
  file : Option Checkpoint
  history : List Checkpoint
  clock : Nat
deriving Repr

/-- Python `set.add` on the insertion-ordered list model. -/
def insertUrl (u : String) (l : List String) : List String :=
  if u ∈ l then l else l ++ [u]

/-- Python `set.add` for page numbers. -/
def insertPage (p : Nat) (l : List Nat) : List Nat :=
  if p ∈ l then l else l ++ [p]

/-- `CheckpointManager.save_checkpoint` (src/scripts/turbo_scraper.py:101-122)
at the logical level: the dict that ends up in the file (its token-level
write trace is `writeStates`). -/
def save_checkpoint (scraped : List String) (pending : List Item)
    (listings : List CarListing) (pages : List Nat) (s : RunState) : RunState :=
  let cp : Checkpoint := ⟨scraped, pending, pages, listings.length⟩
  { s with file := some cp, history := s.history ++ [cp] }

/-- `TurboAzScraper.scrape_listing` (src/scripts/turbo_scraper.py:554-583):
`None` when the stop flag is set or the detail fetch fails; otherwise the
parsed listing, with the phone numbers merged in when the listing id is
non-empty and the phone fetch returned something, and the url added to
`self.scraped_urls`. -/
def scrape_listing (env : RunEnv) (it : Item) (s : RunState) :
    Option CarListing × RunState :=
  if env.stop s.clock then (none, { s with clock := s.clock + 1 })
  else
    let s := { s with clock := s.clock + 1 }
    if env.ok it.url then
      let l := parse_listing_page (env.page it.url) it.url (some it.badges) env.now
      let l := if l.listing_id ≠ "" then
          (let p := env.phones it.url
           if p ≠ "" then { l with seller_phone := p } else l)
        else l
      (some l, { s with scraped_urls := insertUrl it.url s.scraped_urls })
    else (none, s)

/-- The page-discovery loop (src/scripts/turbo_scraper.py:620-638): for each
page, break on the stop flag, skip pages already completed, else extend
`all_listing_data`, mark the page completed and save a checkpoint. -/
def pageLoop (env : RunEnv) : List Nat → List Item → RunState → List Item × RunState
  | [], all, s => (all, s)
  | p :: ps, all, s =>
    if env.stop s.clock then (all, { s with clock := s.clock + 1 })
    else
      let s := { s with clock := s.clock + 1 }
      if p ∈ s.pages_completed then pageLoop env ps all s
      else
        let all2 := all ++ env.pageItems p
        let pages := insertPage p s.pages_completed
        let s := save_checkpoint s.scraped_urls all2 s.scraped_listings pages
          { s with pages_completed := pages }
        pageLoop env ps all2 s

/-- The item-scrape loop (src/scripts/turbo_scraper.py:645-663): `full` is
`data_to_scrape`, `idx` the 1-based position; break on the stop flag,
append each successful listing, auto-save every `interval` items with the
not-yet-attempted tail `full.drop idx` as the pending list. -/
def itemLoop (env : RunEnv) (full : List Item) (interval : Nat) :
    List Item → Nat → RunState → RunState
  | [], _, s => s
  | it :: rest, idx, s =>
    if env.stop s.clock then { s with clock := s.clock + 1 }
    else
      let s := { s with clock := s.clock + 1 }
      let (res, s) := scrape_listing env it s
      let s := match res with
        | some l => { s with scraped_listings := s.scraped_listings ++ [l] }
        | none => s
      let s := if idx % interval = 0 then
          save_checkpoint s.scraped_urls (full.drop idx) s.scraped_listings
            s.pages_completed s
        else s
      itemLoop env full interval rest (idx + 1) s

/-- Resumption (src/scripts/turbo_scraper.py:605-615): rehydrate from the
checkpoint when one loads, else start empty; `backup` is what
`load_data_backup` returns.  Yields the initial `pending_data` and state. -/
def initRun (file : Option (List Tok)) (backup : List CarListing) :
    List Item × RunState :=
  match load_checkpoint file with
  | some cp => (cp.pending_urls, ⟨cp.scraped_urls, backup, cp.pages_completed, some cp, [], 0⟩)
  | none => ([], ⟨[], [], [], none, [], 0⟩)

/-- Load, then run the page-discovery loop over
`range(start_page, end_page + 1)`. -/
def afterPages (env : RunEnv) (start_page end_page : Nat)
    (file : Option (List Tok)) (backup : List CarListing) : List Item × RunState :=
  let r := initRun file backup
  pageLoop env (List.range' start_page (end_page + 1 - start_page)) r.1 r.2

/-- `data_to_scrape` (src/scripts/turbo_scraper.py:641): the discovered and
pending items whose url is not already in `self.scraped_urls`. -/
def dataToScrape (env : RunEnv) (start_page end_page : Nat)
    (file : Option (List Tok)) (backup : List CarListing) : List Item :=
  let r := afterPages env start_page end_page file backup
  r.1.filter fun it => !(r.2.scraped_urls.contains it.url)

/-- `TurboAzScraper.scrape_all_pages` (src/scripts/turbo_scraper.py:601-680):
load, discover pages, filter, drain the item queue, then either clear the
checkpoint (clean completion) or write a final checkpoint with an empty
pending list (interrupted). -/
def scrape_all_pages (env : RunEnv) (start_page end_page interval : Nat)
    (file : Option (List Tok)) (backup : List CarListing) : RunState :=
  let r := afterPages env start_page end_page file backup
  let dts := r.1.filter fun it => !(r.2.scraped_urls.contains it.url)
  let s2 := itemLoop env dts interval dts 1 r.2
  if env.stop s2.clock then
    save_checkpoint s2.scraped_urls [] s2.scraped_listings s2.pages_completed s2
  else { s2 with file := none }

/-! ## Concrete instances used in counterexamples -/

/-- A concrete previous, fully-written checkpoint. -/
def cpPrev : Checkpoint := ⟨["u1"], [], [1], 1⟩

/-- A concrete new checkpoint being written over `cpPrev`. -/
def cpNext : Checkpoint := ⟨["u1", "u2"], [], [1, 2], 2⟩

/-- C1 counterexample environment: page 1 discovers the single item with url
`"X"`, whose detail fetch fails on every attempt; no interruption ever. -/
def envFailX : RunEnv :=
  ⟨fun p => if p = 1 then [⟨"X", {}⟩] else [], fun _ => false,
    fun _ => emptyMarkup, fun _ => "", fun _ => false, "T"⟩

/-- C3 counterexample: the checkpoint loaded at startup, recording url
`"u1"` as already scraped. -/
def cpScrapedU1 : Checkpoint := ⟨["u1"], [], [], 1⟩

/-- C3 counterexample environment: page 1 (re-)discovers the already-scraped
url `"u1"`; no interruption. -/
def envRediscover : RunEnv :=
  ⟨fun p => if p = 1 then [⟨"u1", {}⟩] else [], fun _ => false,
    fun _ => emptyMarkup, fun _ => "", fun _ => false, "T"⟩

/-- A freshly-constructed run state (no checkpoint loaded). -/
def baseState : RunState := ⟨[], [], [], none, [], 0⟩

/-- An environment whose detail fetches always succeed and whose pages are
all empty; used to instantiate witnesses. -/
def envOkEmpty : RunEnv :=
  ⟨fun _ => [], fun _ => true, fun _ => emptyMarkup, fun _ => "", fun _ => false, "T"⟩

/-! ## Helper lemmas -/

theorem rotateProxy_proxy_urls (s : ProxyState) :
    (rotateProxy s).proxy_urls = s.proxy_urls := by
  unfold rotateProxy
  split <;> rfl

theorem rotateProxy_enabled (s : ProxyState) :
    (rotateProxy s).proxy_rotation_enabled = s.proxy_rotation_enabled := by
  unfold rotateProxy
  split <;> rfl

theorem iterRotate_proxy_urls (n : Nat) (s : ProxyState) :
    (iterRotate n s).proxy_urls = s.proxy_urls := by
  induction n generalizing s with
  | zero => rfl
  | succ n ih => rw [iterRotate, ih, rotateProxy_proxy_urls]

theorem iterRotate_enabled (n : Nat) (s : ProxyState) :
    (iterRotate n s).proxy_rotation_enabled = s.proxy_rotation_enabled := by
  induction n generalizing s with
  | zero => rfl
  | succ n ih => rw [iterRotate, ih, rotateProxy_enabled]

theorem rotateProxy_index_lt (s : ProxyState) (h : s.current_proxy_index < s.proxy_urls.length) :
    (rotateProxy s).current_proxy_index < (rotateProxy s).proxy_urls.length := by
  rw [rotateProxy_proxy_urls]
  unfold rotateProxy
  split
  · exact h
  · have hpos : 0 < s.proxy_urls.length := by omega
    simpa using Nat.mod_lt _ hpos

theorem iterRotate_index_invariant (arg : ProxyArg) (n : Nat) :
    (iterRotate n (initProxy arg)).current_proxy_index
      ≤ (iterRotate n (initProxy arg)).proxy_urls.length - 1 ∧
    ((iterRotate n (initProxy arg)).proxy_urls = [] →
      (iterRotate n (initProxy arg)).current_proxy_index = 0) := by
  have key : ∀ (m : Nat) (s : ProxyState),
      (s.proxy_urls = [] → s.current_proxy_index = 0) →
      (s.proxy_urls ≠ [] → s.current_proxy_index < s.proxy_urls.length) →
      ((iterRotate m s).proxy_urls = [] → (iterRotate m s).current_proxy_index = 0) ∧
      ((iterRotate m s).proxy_urls ≠ [] →
        (iterRotate m s).current_proxy_index < (iterRotate m s).proxy_urls.length) := by
    intro m
    induction m with
    | zero => intro s h0 h1; exact ⟨h0, h1⟩
    | succ m ih =>
      intro s h0 h1
      rw [iterRotate]
      apply ih
      · intro he
        rw [rotateProxy_proxy_urls] at he
        have hfix : rotateProxy s = s := by
          unfold rotateProxy
          rw [if_pos (Or.inr (by simp [he]))]
        rw [hfix]
        exact h0 he
      · intro hne
        rw [rotateProxy_proxy_urls] at hne
        exact rotateProxy_index_lt s (h1 hne)
  have base0 : (initProxy arg).proxy_urls = [] → (initProxy arg).current_proxy_index = 0 := by
    cases arg <;> intro h <;> rfl
  have base1 : (initProxy arg).proxy_urls ≠ [] →
      (initProxy arg).current_proxy_index < (initProxy arg).proxy_urls.length := by
    cases arg with
    | list urls =>
      intro h
      simpa [initProxy] using List.length_pos.mpr h
    | single url => intro _; simp [initProxy]
    | none => intro h; simp [initProxy] at h
  have := key n (initProxy arg) base0 base1
  refine ⟨?_, this.1⟩
  by_cases he : (iterRotate n (initProxy arg)).proxy_urls = []
  · simp [this.1 he, he]
  · exact Nat.le_sub_one_of_lt (this.2 he)

/-! ## C7: proxy rotation arithmetic -/

/-- C7: from any pool reachable from the constructor by finitely many
`_rotate_proxy` calls, `_rotate_proxy` advances the cursor by one modulo the
pool size when the pool has at least two entries, and for a pool of size 0
or 1 it leaves the whole state — in particular the cursor and the proxy
returned by `_get_current_proxy` — unchanged. -/
theorem rotate_advances_cursor (arg : ProxyArg) (n : Nat) :
    (2 ≤ (iterRotate n (initProxy arg)).proxy_urls.length →
      (rotateProxy (iterRotate n (initProxy arg))).current_proxy_index
        = ((iterRotate n (initProxy arg)).current_proxy_index + 1)
            % (iterRotate n (initProxy arg)).proxy_urls.length) ∧
    ((iterRotate n (initProxy arg)).proxy_urls.length ≤ 1 →
      rotateProxy (iterRotate n (initProxy arg)) = iterRotate n (initProxy arg) ∧
      getCurrentProxy (rotateProxy (iterRotate n (initProxy arg)))
        = getCurrentProxy (iterRotate n (initProxy arg))) := by
  constructor
  · intro h2
    have hen : (iterRotate n (initProxy arg)).proxy_rotation_enabled = true := by
      rw [iterRotate_enabled]
      cases arg with
      | list urls => rfl
      | single url =>
        rw [iterRotate_proxy_urls] at h2
        simp [initProxy] at h2
      | none =>
        rw [iterRotate_proxy_urls] at h2
        simp [initProxy] at h2
    unfold rotateProxy
    rw [if_neg]
    simp [hen]
    omega
  · intro h1
    have hno : rotateProxy (iterRotate n (initProxy arg)) = iterRotate n (initProxy arg) := by
      unfold rotateProxy
      rw [if_pos]
      right
      exact h1
    exact ⟨hno, by rw [hno]⟩

/-- Witness for C7 at a concrete pool of three proxies (after one rotation)
and a concrete pool of one proxy. -/
theorem rotate_advances_cursor_witness :
    (2 ≤ (iterRotate 1 (initProxy (.list ["p1", "p2", "p3"]))).proxy_urls.length ∧
      (rotateProxy (iterRotate 1 (initProxy (.list ["p1", "p2", "p3"])))).current_proxy_index
        = ((iterRotate 1 (initProxy (.list ["p1", "p2", "p3"]))).current_proxy_index + 1)
            % (iterRotate 1 (initProxy (.list ["p1", "p2", "p3"]))).proxy_urls.length) ∧
    ((iterRotate 0 (initProxy (.single "p"))).proxy_urls.length ≤ 1 ∧
      rotateProxy (iterRotate 0 (initProxy (.single "p"))) = iterRotate 0 (initProxy (.single "p"))) :=
  ⟨⟨by decide, (rotate_advances_cursor (.list ["p1", "p2", "p3"]) 1).1 (by decide)⟩,
    ⟨by decide, ((rotate_advances_cursor (.single "p") 0).2 (by decide)).1⟩⟩

/-! ## C9: proxy cursor stays in range -/

/-- C9: from a freshly constructed scraper, after any finite sequence of
`_rotate_proxy` calls the cursor is strictly below the pool size whenever the
pool is non-empty and equals 0 when it is empty, so `_get_current_proxy`
never indexes out of range (the lookup returns a value) and returns `none`
exactly when no proxies are configured. -/
theorem proxy_cursor_in_range (arg : ProxyArg) (n : Nat) :
    ((iterRotate n (initProxy arg)).proxy_urls = [] →
      (iterRotate n (initProxy arg)).current_proxy_index = 0) ∧
    ((iterRotate n (initProxy arg)).proxy_urls ≠ [] →
      (iterRotate n (initProxy arg)).current_proxy_index
        < (iterRotate n (initProxy arg)).proxy_urls.length ∧
      ∃ u, (iterRotate n (initProxy arg)).proxy_urls.get?
            (iterRotate n (initProxy arg)).current_proxy_index = some u ∧
        getCurrentProxy (iterRotate n (initProxy arg)) = some u) ∧
    (getCurrentProxy (iterRotate n (initProxy arg)) = none ↔
      (iterRotate n (initProxy arg)).proxy_urls = []) := by
  have inv := iterRotate_index_invariant arg n
  set s := iterRotate n (initProxy arg) with hs
  refine ⟨inv.2, ?_, ?_⟩
  · intro hne
    have hlt : s.current_proxy_index < s.proxy_urls.length := by
      have hpos : 0 < s.proxy_urls.length := List.length_pos.mpr hne
      omega
    refine ⟨hlt, ⟨s.proxy_urls.get ⟨s.current_proxy_index, hlt⟩, List.get?_eq_get hlt, ?_⟩⟩
    unfold getCurrentProxy
    rw [if_neg (by simpa using hne)]
    exact List.get?_eq_get hlt
  · constructor
    · intro hcn
      by_contra hne
      have hlt : s.current_proxy_index < s.proxy_urls.length := by
        have hpos : 0 < s.proxy_urls.length := List.length_pos.mpr hne
        omega
      unfold getCurrentProxy at hcn
      rw [if_neg (by simpa using hne), List.get?_eq_get hlt] at hcn
      exact Option.noConfusion hcn
    · intro he
      unfold getCurrentProxy
      rw [if_pos (by simpa using he)]

/-- Witness for C9 at a concrete two-proxy pool after three rotations, and at
the empty pool. -/
theorem proxy_cursor_in_range_witness :
    ((iterRotate 3 (initProxy (.list ["a", "b"]))).proxy_urls ≠ [] ∧
      (iterRotate 3 (initProxy (.list ["a", "b"]))).current_proxy_index
        < (iterRotate 3 (initProxy (.list ["a", "b"]))).proxy_urls.length) ∧
    ((iterRotate 2 (initProxy .none)).proxy_urls = [] →
      (iterRotate 2 (initProxy .none)).current_proxy_index = 0) :=
  ⟨⟨by decide, ((proxy_cursor_in_range (.list ["a", "b"]) 3).2.1 (by decide)).1⟩,
    (proxy_cursor_in_range .none 2).1⟩

theorem countRotations_append (l1 l2 : List FetchEvent) :
    countRotations (l1 ++ l2) = countRotations l1 + countRotations l2 :=
  List.countP_append _ _ _

theorem attemptIndices_append (l1 l2 : List FetchEvent) :
    attemptIndices (l1 ++ l2) = attemptIndices l1 ++ attemptIndices l2 :=
  List.filterMap_append _ _ _

theorem countRotations_backoff (c : Prop) [Decidable c] (x : ℚ) :
    countRotations (if c then [FetchEvent.sleep x] else []) = 0 := by
  split <;> rfl

theorem attemptIndices_backoff (c : Prop) [Decidable c] (x : ℚ) :
    attemptIndices (if c then [FetchEvent.sleep x] else []) = [] := by
  split <;> rfl

/-- Rotation events in a `fetch_page` trace are exactly the made attempts
whose outcome is one of the spec's trigger classes. -/
theorem countRotations_fetchPageAux (o : Nat → FetchOutcome) (rc : Nat) (d : ℚ) :
    ∀ (fuel a : Nat) (ps : ProxyState),
      countRotations (fetchPageAux o rc d fuel a ps).2.1
        = ((attemptIndices (fetchPageAux o rc d fuel a ps).2.1).filter
            fun k => triggersRotation (o k)).length := by
  intro fuel
  induction fuel with
  | zero => intro a ps; rfl
  | succ fuel ih =>
    intro a ps
    rcases ho : o (a + 1) with b | code | _ | _ | _
    · simp [fetchPageAux, ho, countRotations, attemptIndices, triggersRotation]
    · by_cases hc : code = 403 ∨ code = 429
      · have ht : triggersRotation (FetchOutcome.status code) = true := by
          rcases hc with h | h <;> subst h <;> rfl
        simp only [fetchPageAux, ho, if_pos hc]
        rw [countRotations_append, countRotations_append, countRotations_append,
          attemptIndices_append, attemptIndices_append, attemptIndices_append,
          attemptIndices_backoff, countRotations_backoff, ih]
        simp [countRotations, attemptIndices, List.filter_append, ho, ht]
        omega
      · have ht : triggersRotation (FetchOutcome.status code) = false := by
          unfold triggersRotation
          rw [Bool.or_eq_false_iff]
          constructor <;> simp <;> omega
        simp only [fetchPageAux, ho, if_neg hc]
        rw [countRotations_append, countRotations_append,
          attemptIndices_append, attemptIndices_append,
          attemptIndices_backoff, countRotations_backoff, ih]
        simp [countRotations, attemptIndices, List.filter_append, ho, ht]
    · simp only [fetchPageAux, ho]
      rw [countRotations_append, countRotations_append, countRotations_append,
        attemptIndices_append, attemptIndices_append, attemptIndices_append,
        attemptIndices_backoff, countRotations_backoff, ih]
      simp [countRotations, attemptIndices, List.filter_append, ho, triggersRotation]
      all_goals omega
    · simp only [fetchPageAux, ho]
      rw [countRotations_append, countRotations_append, countRotations_append,
        attemptIndices_append, attemptIndices_append, attemptIndices_append,
        attemptIndices_backoff, countRotations_backoff, ih]
      simp [countRotations, attemptIndices, List.filter_append, ho, triggersRotation]
      all_goals omega
    · simp only [fetchPageAux, ho]
      rw [countRotations_append, countRotations_append,
        attemptIndices_append, attemptIndices_append,
        attemptIndices_backoff, countRotations_backoff, ih]
      simp [countRotations, attemptIndices, List.filter_append, ho, triggersRotation]

theorem delayBeforeAux_sleep (x : ℚ) (rest : List FetchEvent) (k : Nat) (acc : ℚ) :
    delayBeforeAux (FetchEvent.sleep x :: rest) k acc = delayBeforeAux rest k (acc + x) := rfl

theorem delayBeforeAux_rotate (rest : List FetchEvent) (k : Nat) (acc : ℚ) :
    delayBeforeAux (FetchEvent.rotate :: rest) k acc = delayBeforeAux rest k acc := rfl

theorem delayBeforeAux_hit (d : ℚ) (k : Nat) (rest : List FetchEvent) (acc : ℚ) :
    delayBeforeAux (FetchEvent.sleep d :: FetchEvent.attempt k :: rest) k acc = acc + d := by
  rw [delayBeforeAux_sleep]
  simp [delayBeforeAux]

theorem delayBeforeAux_skip (d : ℚ) (j k : Nat) (hjk : j ≠ k) (rest : List FetchEvent) (acc : ℚ) :
    delayBeforeAux (FetchEvent.sleep d :: FetchEvent.attempt j :: rest) k acc
      = delayBeforeAux rest k 0 := by
  rw [delayBeforeAux_sleep]
  simp only [delayBeforeAux]
  rw [if_neg hjk]

/-- The sleep inserted before attempt `k` in a `fetchPageAux` run, assuming
every attempt before `k` fails. -/
theorem delayBefore_fetchPageAux (o : Nat → FetchOutcome) (rc : Nat) (d : ℚ) :
    ∀ (fuel a : Nat) (ps : ProxyState) (acc : ℚ) (k : Nat),
      a + 1 ≤ k → k ≤ a + fuel → k ≤ rc →
      (∀ j, a + 1 ≤ j → j < k → ∀ b, o j ≠ FetchOutcome.success b) →
      delayBeforeAux (fetchPageAux o rc d fuel a ps).2.1 k acc
        = if k = a + 1 then acc + d else d + 2 ^ (k - 2) := by
  intro fuel
  induction fuel with
  | zero => intro a ps acc k h1 h2 h3 h4; omega
  | succ fuel ih =>
    intro a ps acc k h1 h2 h3 h4
    by_cases hk : k = a + 1
    · subst hk
      rw [if_pos rfl]
      rcases ho : o (a + 1) with b | code | _ | _ | _
      · simp only [fetchPageAux, ho]
        exact delayBeforeAux_hit d (a + 1) _ acc
      · by_cases hc : code = 403 ∨ code = 429
        · simp only [fetchPageAux, ho, if_pos hc, List.cons_append, List.nil_append]
          exact delayBeforeAux_hit d (a + 1) _ acc
        · simp only [fetchPageAux, ho, if_neg hc, List.cons_append, List.nil_append]
          exact delayBeforeAux_hit d (a + 1) _ acc
      · simp only [fetchPageAux, ho, List.cons_append, List.nil_append]
        exact delayBeforeAux_hit d (a + 1) _ acc
      · simp only [fetchPageAux, ho, List.cons_append, List.nil_append]
        exact delayBeforeAux_hit d (a + 1) _ acc
      · simp only [fetchPageAux, ho, List.cons_append, List.nil_append]
        exact delayBeforeAux_hit d (a + 1) _ acc
    · have hlt : a + 1 < k := by omega
      have hne := h4 (a + 1) (by omega) hlt
      have hb : a + 1 < rc := by omega
      have hk' : a + 1 ≠ k := fun h => hk h.symm
      rw [if_neg hk]
      have step : ∀ ps' : ProxyState,
          delayBeforeAux (fetchPageAux o rc d fuel (a + 1) ps').2.1 k ((0 : ℚ) + 2 ^ a)
            = d + 2 ^ (k - 2) := by
        intro ps'
        rw [ih (a + 1) ps' ((0 : ℚ) + 2 ^ a) k (by omega) (by omega) h3
          (fun j hj1 hj2 => h4 j (by omega) hj2)]
        by_cases hk2 : k = a + 2
        · rw [if_pos hk2]
          have hk3 : k - 2 = a := by omega
          rw [hk3]
          ring
        · rw [if_neg hk2]
      rcases ho : o (a + 1) with b | code | _ | _ | _
      · exact absurd ho (hne b)
      · by_cases hc : code = 403 ∨ code = 429
        · simp only [fetchPageAux, ho, if_pos hc, if_pos hb, List.cons_append, List.nil_append]
          rw [delayBeforeAux_skip d (a + 1) k hk', delayBeforeAux_rotate,
            delayBeforeAux_sleep]
          exact step _
        · simp only [fetchPageAux, ho, if_neg hc, if_pos hb, List.cons_append, List.nil_append]
          rw [delayBeforeAux_skip d (a + 1) k hk', delayBeforeAux_sleep]
          exact step _
      · simp only [fetchPageAux, ho, if_pos hb, List.cons_append, List.nil_append]
        rw [delayBeforeAux_skip d (a + 1) k hk', delayBeforeAux_rotate, delayBeforeAux_sleep]
        exact step _
      · simp only [fetchPageAux, ho, if_pos hb, List.cons_append, List.nil_append]
        rw [delayBeforeAux_skip d (a + 1) k hk', delayBeforeAux_rotate, delayBeforeAux_sleep]
        exact step _
      · simp only [fetchPageAux, ho, if_pos hb, List.cons_append, List.nil_append]
        rw [delayBeforeAux_skip d (a + 1) k hk', delayBeforeAux_sleep]
        exact step _

/-! ## C4: retry backoff delays -/

/-- C4 (amended): in `fetch_page`, the delay inserted before attempt 1 is
`delay_between_requests` (the per-request rate-limit pause precedes every
attempt, including the first), and — when every earlier attempt fails — the
delay inserted before attempt `k ≥ 2` is `delay_between_requests + 2^(k-2)`:
the exponential-backoff component has the fixed base 1 second (`2 ** attempt`),
not a configurable base delay, and it is added to the rate-limit pause. -/
theorem fetch_backoff_delays (o : Nat → FetchOutcome) (rc : Nat) (d : ℚ) (ps : ProxyState) :
    (1 ≤ rc → delayBefore (fetch_page o rc d ps).2.1 1 = d) ∧
    (∀ k, 2 ≤ k → k ≤ rc →
      (∀ j, 1 ≤ j → j < k → ∀ b, o j ≠ FetchOutcome.success b) →
      delayBefore (fetch_page o rc d ps).2.1 k = d + 2 ^ (k - 2)) := by
  constructor
  · intro h
    unfold delayBefore fetch_page
    rw [delayBefore_fetchPageAux o rc d rc 0 ps 0 1 (by omega) (by omega) h
      (fun j hj1 hj2 => absurd (Nat.lt_of_lt_of_le hj2 hj1) (Nat.lt_irrefl j))]
    rw [if_pos (by omega)]
    ring
  · intro k h2 hrc hfail
    unfold delayBefore fetch_page
    rw [delayBefore_fetchPageAux o rc d rc 0 ps 0 k (by omega) (by omega) hrc
      (fun j hj1 hj2 => hfail j hj1 hj2)]
    rw [if_neg (by omega)]

/-- C4 counterexample: the claim asserts the delay before attempt 1 is
exactly 0; with `delay_between_requests = 2` (the repository's `.env`
default `DELAY`), `fetch_page` sleeps 2 seconds before the first attempt. -/
theorem fetch_backoff_counterexample :
    delayBefore (fetch_page (fun _ => FetchOutcome.timeout) 3 2 (initProxy .none)).2.1 1 = 2 ∧
    (2 : ℚ) ≠ 0 := by
  refine ⟨?_, by norm_num⟩
  unfold delayBefore fetch_page
  rw [delayBefore_fetchPageAux (fun _ => FetchOutcome.timeout) 3 2 3 0 (initProxy .none) 0 1
    (by omega) (by omega) (by omega)
    (fun j hj1 hj2 => absurd (Nat.lt_of_lt_of_le hj2 hj1) (Nat.lt_irrefl j))]
  rw [if_pos (by omega)]
  ring

/-- Witness for C4 (amended) at a concrete always-failing fetch with
`delay_between_requests = 1/2` and 3 attempts. -/
theorem fetch_backoff_delays_witness :
    (1 ≤ 3 ∧
      delayBefore (fetch_page (fun _ => FetchOutcome.timeout) 3 (1 / 2)
        (initProxy .none)).2.1 1 = 1 / 2) ∧
    (2 ≤ 3 ∧ 3 ≤ 3 ∧
      delayBefore (fetch_page (fun _ => FetchOutcome.timeout) 3 (1 / 2)
        (initProxy .none)).2.1 3 = 1 / 2 + 2 ^ (3 - 2)) :=
  ⟨⟨by decide, (fetch_backoff_delays (fun _ => FetchOutcome.timeout) 3 (1 / 2)
      (initProxy .none)).1 (by decide)⟩,
    ⟨by decide, by decide, (fetch_backoff_delays (fun _ => FetchOutcome.timeout) 3 (1 / 2)
      (initProxy .none)).2 3 (by decide) (by decide)
      (fun j hj1 hj2 b => by simp)⟩⟩

/-! ## C5: proxy-rotation triggers -/

/-- C5 (amended): in every `fetch_page` run the `_rotate_proxy` calls are
exactly the attempts whose outcome is one of the classes `HTTPStatus(403)`,
`HTTPStatus(429)`, `Timeout`, `ConnectionError` (`triggersRotation`, written
from the spec) — no other HTTP status rotates; but rotation also fires after
the *last* failed attempt, so a fetcher always returning `HTTPStatus(429)`
with `max_attempts = 3` and a pool of 3 proxies performs exactly 3 rotations,
not 2. -/
theorem rotation_trigger_correct (o : Nat → FetchOutcome) (rc : Nat) (d : ℚ) (ps : ProxyState) :
    (countRotations (fetch_page o rc d ps).2.1
      = ((attemptIndices (fetch_page o rc d ps).2.1).filter
          fun k => triggersRotation (o k)).length) ∧
    countRotations (fetch_page (fun _ => FetchOutcome.status 429) 3 2
      (initProxy (.list ["p1", "p2", "p3"]))).2.1 = 3 ∧
    countRotations (fetch_page (fun _ => FetchOutcome.status 404) 3 2
      (initProxy (.list ["p1", "p2", "p3"]))).2.1 = 0 ∧
    countRotations (fetch_page (fun _ => FetchOutcome.status 500) 3 2
      (initProxy (.list ["p1", "p2", "p3"]))).2.1 = 0 :=
  ⟨countRotations_fetchPageAux o rc d rc 0 ps, by decide, by decide, by decide⟩

/-- C5 counterexample: the claim's scenario (always `HTTPStatus(429)`,
`max_attempts = 3`, pool of 3) does not perform exactly 2 rotations. -/
theorem rotation_count_counterexample :
    countRotations (fetch_page (fun _ => FetchOutcome.status 429) 3 2
      (initProxy (.list ["p1", "p2", "p3"]))).2.1 ≠ 2 := by
  decide

/-! ## Checkpoint serialisation lemmas -/

theorem readStrs_append (ss : List String) (rest : List Tok) :
    readStrs ss.length (ss.map Tok.str ++ rest) = some (ss, rest) := by
  induction ss with
  | nil => rfl
  | cons s ss ih => simp [readStrs, ih]

theorem readItems_append (its : List Item) (rest : List Tok) :
    readItems its.length (its.map Tok.item ++ rest) = some (its, rest) := by
  induction its with
  | nil => rfl
  | cons it its ih => simp [readItems, ih]

theorem readNums_append (ms : List Nat) (rest : List Tok) :
    readNums ms.length (ms.map Tok.num ++ rest) = some (ms, rest) := by
  induction ms with
  | nil => rfl
  | cons m ms ih => simp [readNums, ih]

theorem decode_encode (cp : Checkpoint) :
    decodeCheckpoint (encodeCheckpoint cp) = some cp := by
  unfold encodeCheckpoint decodeCheckpoint
  simp only [List.append_assoc, List.cons_append, List.nil_append,
    readStrs_append, readItems_append, readNums_append]

theorem readStrs_mem {n : Nat} {ts r : List Tok} {ss : List String}
    (h : readStrs n ts = some (ss, r)) : ∀ x ∈ r, x ∈ ts := by
  induction n generalizing ts ss with
  | zero =>
    unfold readStrs at h
    cases h
    exact fun x hx => hx
  | succ n ih =>
    match ts, h with
    | .str s :: ts', h =>
      revert h
      unfold readStrs
      cases hr : readStrs n ts' with
      | none => intro h; cases h
      | some p =>
        intro h
        cases h
        exact fun x hx => List.mem_cons_of_mem _ (ih hr x hx)

theorem readItems_mem {n : Nat} {ts r : List Tok} {its : List Item}
    (h : readItems n ts = some (its, r)) : ∀ x ∈ r, x ∈ ts := by
  induction n generalizing ts its with
  | zero =>
    unfold readItems at h
    cases h
    exact fun x hx => hx
  | succ n ih =>
    match ts, h with
    | .item it :: ts', h =>
      revert h
      unfold readItems
      cases hr : readItems n ts' with
      | none => intro h; cases h
      | some p =>
        intro h
        cases h
        exact fun x hx => List.mem_cons_of_mem _ (ih hr x hx)

theorem readNums_mem {n : Nat} {ts r : List Tok} {ms : List Nat}
    (h : readNums n ts = some (ms, r)) : ∀ x ∈ r, x ∈ ts := by
  induction n generalizing ts ms with
  | zero =>
    unfold readNums at h
    cases h
    exact fun x hx => hx
  | succ n ih =>
    match ts, h with
    | .num m :: ts', h =>
      revert h
      unfold readNums
      cases hr : readNums n ts' with
      | none => intro h; cases h
      | some p =>
        intro h
        cases h
        exact fun x hx => List.mem_cons_of_mem _ (ih hr x hx)

theorem decode_some_rbrace {ts : List Tok} {cp : Checkpoint}
    (h : decodeCheckpoint ts = some cp) : Tok.rbrace ∈ ts := by
  unfold decodeCheckpoint at h
  repeat' split at h
  any_goals exact Option.noConfusion h
  rename_i ts2 n1 rest x2 scraped n2 rest2 heq1 x1 pending n3 rest3 heq2 x0 pages total heq3
  have m3 : Tok.rbrace ∈ rest3 :=
    readNums_mem heq3 Tok.rbrace (by simp)
  have m2 : Tok.rbrace ∈ rest2 :=
    readItems_mem heq2 Tok.rbrace (List.mem_cons_of_mem _ m3)
  have m1 : Tok.rbrace ∈ rest :=
    readStrs_mem heq1 Tok.rbrace (List.mem_cons_of_mem _ m2)
  exact List.mem_cons_of_mem _ (List.mem_cons_of_mem _ m1)

theorem encode_front_rbrace (cp : Checkpoint) :
    ∃ front, encodeCheckpoint cp = front ++ [Tok.rbrace] ∧ Tok.rbrace ∉ front := by
  refine ⟨[Tok.lbrace, Tok.num cp.scraped_urls.length] ++ cp.scraped_urls.map Tok.str
    ++ [Tok.num cp.pending_urls.length] ++ cp.pending_urls.map Tok.item
    ++ [Tok.num cp.pages_completed.length] ++ cp.pages_completed.map Tok.num
    ++ [Tok.num cp.total_scraped], ?_, ?_⟩
  · unfold encodeCheckpoint
    simp
  · simp

theorem decode_take_none (cp : Checkpoint) (k : Nat)
    (hk : k < (encodeCheckpoint cp).length) :
    decodeCheckpoint ((encodeCheckpoint cp).take k) = none := by
  obtain ⟨front, henc, hnot⟩ := encode_front_rbrace cp
  cases hdec : decodeCheckpoint ((encodeCheckpoint cp).take k) with
  | none => rfl
  | some cp' =>
    exfalso
    have hmem := decode_some_rbrace hdec
    have hlen : (encodeCheckpoint cp).length = front.length + 1 := by
      rw [henc]
      simp
    have hklen : k ≤ front.length := by omega
    rw [henc, List.take_append_of_le_length hklen] at hmem
    exact hnot (List.take_subset k front hmem)

/-! ## C2: checkpoint save is not an atomic replace -/

/-- C2 (amended): `save_checkpoint` writes the checkpoint file in place —
`open(file, 'w')` truncates it and `json.dump` then appends the new
serialisation, with no temporary file and no rename.  Every mid-write state
(`writeStates`) therefore loads as either the complete new checkpoint or a
parse failure, which `load_checkpoint` maps to "no checkpoint"; a
half-written hybrid is never *mis*parsed, but the previous checkpoint is
destroyed by the truncation, so dying mid-write loses it (atomic-replace
semantics do not hold). -/
theorem checkpoint_write_states_decode (cp : Checkpoint) :
    decodeCheckpoint (encodeCheckpoint cp) = some cp ∧
    ∀ s ∈ writeStates cp, decodeCheckpoint s = some cp ∨ decodeCheckpoint s = none := by
  refine ⟨decode_encode cp, ?_⟩
  intro s hs
  unfold writeStates at hs
  simp only [List.mem_map, List.mem_range] at hs
  obtain ⟨k, hk, rfl⟩ := hs
  by_cases hfull : k = (encodeCheckpoint cp).length
  · subst hfull
    rw [List.take_length]
    exact Or.inl (decode_encode cp)
  · exact Or.inr (decode_take_none cp k (by omega))

/-- Witness for C2 (amended): the truncated (empty) state of a concrete
save is a member of its write states and decodes to "no checkpoint". -/
theorem checkpoint_write_states_decode_witness :
    ([] : List Tok) ∈ writeStates cpNext ∧
    (decodeCheckpoint ([] : List Tok) = some cpNext ∨
      decodeCheckpoint ([] : List Tok) = none) :=
  ⟨by decide, (checkpoint_write_states_decode cpNext).2 [] (by decide)⟩

/-- C2 counterexample: if the process dies right after `open(file, 'w')`
truncates the checkpoint file (the first of `save_checkpoint`'s mid-write
states), a subsequent load yields neither the previous checkpoint `cpPrev`
nor the new one `cpNext` — the claimed atomic-replace guarantee is false. -/
theorem checkpoint_save_counterexample :
    ¬ ∀ s ∈ writeStates cpNext,
        decodeCheckpoint s = some cpPrev ∨ decodeCheckpoint s = some cpNext := by
  intro h
  have h0 : ([] : List Tok) ∈ writeStates cpNext := by decide
  rcases h [] h0 with h1 | h1 <;> exact absurd h1 (by decide)

/-! ## C6: loading a missing or corrupt checkpoint -/

/-- C6: `load_checkpoint` on a missing file, or on a file whose contents do
not parse, yields no checkpoint, and `scrape_all_pages` then starts from
the empty crawl state — no completed pages, no completed identifiers, no
pending items, no records.  Exceptions are caught inside `load_checkpoint`
(its model is a total function into `Option`), so nothing propagates to the
caller. -/
theorem load_checkpoint_empty_state (file : Option (List Tok)) (backup : List CarListing) :
    (file = none ∨ ∃ ts, file = some ts ∧ decodeCheckpoint ts = none) →
    initRun file backup = ([], ⟨[], [], [], none, [], 0⟩) := by
  intro h
  rcases h with h | ⟨ts, rfl, hts⟩
  · subst h
    rfl
  · simp [initRun, load_checkpoint, hts]

/-- Witness for C6 at a concrete unparseable file. -/
theorem load_checkpoint_empty_state_witness :
    (some [Tok.num 5] = none ∨
      ∃ ts, some [Tok.num 5] = some ts ∧ decodeCheckpoint ts = none) ∧
    initRun (some [Tok.num 5]) [] = ([], ⟨[], [], [], none, [], 0⟩) :=
  ⟨Or.inr ⟨[Tok.num 5], rfl, rfl⟩,
    load_checkpoint_empty_state (some [Tok.num 5]) [] (Or.inr ⟨[Tok.num 5], rfl, rfl⟩)⟩

/-! ## Text-cleaning lemmas -/

/-- A list of words as produced by `pySplit`: every word is non-empty and
contains no whitespace. -/
def WordsWF (W : List (List Char)) : Prop :=
  ∀ w ∈ W, w ≠ [] ∧ ∀ c ∈ w, c.isWhitespace = false

theorem splitAux_all_ws {t : List Char} (ht : ∀ c ∈ t, c.isWhitespace = true) :
    ∀ acc, splitAux t acc = splitAux [] acc := by
  induction t with
  | nil => intro acc; rfl
  | cons c t ih =>
    intro acc
    have hc : c.isWhitespace = true := ht c (by simp)
    have ih' := ih fun x hx => ht x (by simp [hx])
    simp only [splitAux, hc, if_true, ih' ([] : List Char)]
    by_cases ha : acc.isEmpty <;> simp [splitAux, ha]

theorem splitAux_ws_lead {p : List Char} (hp : ∀ c ∈ p, c.isWhitespace = true) :
    ∀ l, splitAux (p ++ l) [] = splitAux l [] := by
  induction p with
  | nil => intro l; rfl
  | cons c p ih =>
    intro l
    have hc : c.isWhitespace = true := hp c (by simp)
    simp only [List.cons_append, splitAux, hc, if_true, List.isEmpty_nil, ite_true]
    exact ih (fun x hx => hp x (by simp [hx])) l

theorem splitAux_ws_tail {t : List Char} (ht : ∀ c ∈ t, c.isWhitespace = true) :
    ∀ l acc, splitAux (l ++ t) acc = splitAux l acc := by
  intro l
  induction l with
  | nil =>
    intro acc
    exact splitAux_all_ws ht acc
  | cons c l ih =>
    intro acc
    by_cases hc : c.isWhitespace <;> simp [splitAux, hc, ih]

theorem revAcc_wf {acc : List Char} (hacc : ∀ c ∈ acc, c.isWhitespace = false)
    (ha : acc.isEmpty = false) :
    acc.reverse ≠ [] ∧ ∀ c ∈ acc.reverse, c.isWhitespace = false := by
  constructor
  · simp only [ne_eq, List.reverse_eq_nil_iff]
    intro h
    rw [h] at ha
    cases ha
  · intro c hc
    exact hacc c (List.mem_reverse.mp hc)

theorem splitAux_wf {l : List Char} :
    ∀ acc, (∀ c ∈ acc, c.isWhitespace = false) → WordsWF (splitAux l acc) := by
  induction l with
  | nil =>
    intro acc hacc w hw
    unfold splitAux at hw
    by_cases ha : acc.isEmpty
    · rw [if_pos ha] at hw
      cases hw
    · rw [if_neg ha] at hw
      simp only [List.mem_singleton] at hw
      subst hw
      exact revAcc_wf hacc (Bool.eq_false_iff.mpr ha)
  | cons c l ih =>
    intro acc hacc w hw
    unfold splitAux at hw
    by_cases hc : c.isWhitespace
    · rw [if_pos hc] at hw
      by_cases ha : acc.isEmpty
      · rw [if_pos ha] at hw
        exact ih [] (by simp) w hw
      · rw [if_neg ha] at hw
        rcases List.mem_cons.mp hw with hw | hw
        · subst hw
          exact revAcc_wf hacc (Bool.eq_false_iff.mpr ha)
        · exact ih [] (by simp) w hw
    · rw [if_neg hc] at hw
      refine ih (c :: acc) ?_ w hw
      intro x hx
      rcases List.mem_cons.mp hx with hx | hx
      · subst hx
        exact Bool.eq_false_iff.mpr hc
      · exact hacc x hx

theorem splitAux_word {w : List Char} (hw : ∀ c ∈ w, c.isWhitespace = false) :
    ∀ l acc, splitAux (w ++ l) acc = splitAux l (w.reverse ++ acc) := by
  induction w with
  | nil => intro l acc; simp
  | cons c w ih =>
    intro l acc
    have hc : c.isWhitespace = false := hw c (by simp)
    show splitAux (c :: (w ++ l)) acc = splitAux l ((c :: w).reverse ++ acc)
    rw [splitAux]
    rw [if_neg (by rw [hc]; exact Bool.false_ne_true)]
    rw [ih (fun x hx => hw x (by simp [hx])) l (c :: acc)]
    simp

theorem pySplit_joinSpace {W : List (List Char)} (hW : WordsWF W) :
    pySplit (joinSpace W) = W := by
  induction W with
  | nil => rfl
  | cons w W ih =>
    have hw := hW w (by simp)
    have hWtail : WordsWF W := fun x hx => hW x (by simp [hx])
    have hrev : w.reverse.isEmpty = false := by
      cases hwrev : w.reverse with
      | nil => exact absurd (List.reverse_eq_nil_iff.mp hwrev) hw.1
      | cons a as => rfl
    cases W with
    | nil =>
      show splitAux (joinSpace [w]) [] = [w]
      have hjw : joinSpace [w] = w ++ [] := by simp [joinSpace]
      rw [hjw, splitAux_word hw.2, List.append_nil]
      rw [splitAux]
      rw [if_neg (by rw [hrev]; exact Bool.false_ne_true)]
      rw [List.reverse_reverse]
    | cons w' W' =>
      show splitAux (joinSpace (w :: w' :: W')) [] = w :: w' :: W'
      have hj : joinSpace (w :: w' :: W') = w ++ ' ' :: joinSpace (w' :: W') := rfl
      rw [hj, splitAux_word hw.2, List.append_nil]
      rw [splitAux]
      rw [if_pos (by decide)]
      rw [if_neg (by rw [hrev]; exact Bool.false_ne_true)]
      rw [List.reverse_reverse]
      exact congrArg (List.cons w) (ih hWtail)

theorem pySplit_pyStrip (l : List Char) : pySplit (pyStrip l) = pySplit l := by
  have hlead : pySplit l = pySplit (l.dropWhile Char.isWhitespace) := by
    unfold pySplit
    conv_lhs => rw [← List.takeWhile_append_dropWhile Char.isWhitespace l]
    exact splitAux_ws_lead (fun c hc => List.mem_takeWhile_imp hc) _
  have hdecomp : l.dropWhile Char.isWhitespace
      = pyStrip l ++ ((l.dropWhile Char.isWhitespace).reverse.takeWhile
          Char.isWhitespace).reverse := by
    unfold pyStrip
    calc l.dropWhile Char.isWhitespace
        = (l.dropWhile Char.isWhitespace).reverse.reverse := by
          rw [List.reverse_reverse]
      _ = ((l.dropWhile Char.isWhitespace).reverse.takeWhile Char.isWhitespace
            ++ (l.dropWhile Char.isWhitespace).reverse.dropWhile Char.isWhitespace).reverse := by
          rw [List.takeWhile_append_dropWhile]
      _ = ((l.dropWhile Char.isWhitespace).reverse.dropWhile Char.isWhitespace).reverse
            ++ ((l.dropWhile Char.isWhitespace).reverse.takeWhile Char.isWhitespace).reverse := by
          rw [List.reverse_append]
  have htail : ∀ c ∈ ((l.dropWhile Char.isWhitespace).reverse.takeWhile
      Char.isWhitespace).reverse, c.isWhitespace = true := by
    intro c hc
    exact List.mem_takeWhile_imp (List.mem_reverse.mp hc)
  have h2 : pySplit (l.dropWhile Char.isWhitespace) = pySplit (pyStrip l) := by
    unfold pySplit
    conv_lhs => rw [hdecomp]
    rw [splitAux_ws_tail htail]
  rw [hlead, h2]

theorem chain'_of_all_not_ws {w : List Char} (hw : ∀ c ∈ w, c.isWhitespace = false) :
    List.Chain' (fun a b => a.isWhitespace = false ∨ b.isWhitespace = false) w := by
  induction w with
  | nil => exact List.chain'_nil
  | cons c w ih =>
    rw [List.chain'_cons']
    constructor
    · intro h _
      exact Or.inl (hw c (by simp))
    · exact ih fun x hx => hw x (by simp [hx])

theorem joinSpace_head {w : List Char} (W : List (List Char)) (hw : w ≠ []) :
    (joinSpace (w :: W)).head? = w.head? := by
  cases W with
  | nil => rfl
  | cons w' W' =>
    show (w ++ ' ' :: joinSpace (w' :: W')).head? = w.head?
    cases w with
    | nil => exact absurd rfl hw
    | cons c cs => rfl

theorem joinSpace_getLast {W : List (List Char)} (hW : WordsWF W) (hne : W ≠ []) :
    ∃ c, (joinSpace W).getLast? = some c ∧ c.isWhitespace = false := by
  induction W with
  | nil => exact absurd rfl hne
  | cons w W ih =>
    have hw := hW w (by simp)
    cases W with
    | nil =>
      refine ⟨w.getLast hw.1, ?_, hw.2 _ (List.getLast_mem hw.1)⟩
      show w.getLast? = some (w.getLast hw.1)
      exact List.getLast?_eq_getLast w hw.1
    | cons w' W' =>
      obtain ⟨c, hc, hcw⟩ := ih (fun x hx => hW x (by simp [hx])) (by simp)
      refine ⟨c, ?_, hcw⟩
      show (w ++ ' ' :: joinSpace (w' :: W')).getLast? = some c
      have hsplit : w ++ ' ' :: joinSpace (w' :: W')
          = w ++ ([' '] ++ joinSpace (w' :: W')) := rfl
      rw [hsplit, List.getLast?_append, List.getLast?_append, hc]
      rfl

theorem joinSpace_chain {W : List (List Char)} (hW : WordsWF W) :
    List.Chain' (fun a b => a.isWhitespace = false ∨ b.isWhitespace = false) (joinSpace W) := by
  induction W with
  | nil => exact List.chain'_nil
  | cons w W ih =>
    have hw := hW w (by simp)
    have hWtail : WordsWF W := fun x hx => hW x (by simp [hx])
    cases W with
    | nil => exact chain'_of_all_not_ws hw.2
    | cons w' W' =>
      show List.Chain' _ (w ++ ' ' :: joinSpace (w' :: W'))
      rw [List.chain'_append]
      refine ⟨chain'_of_all_not_ws hw.2, ?_, ?_⟩
      · rw [List.chain'_cons']
        constructor
        · intro y hy
          have hh := joinSpace_head W' (hW w' (by simp)).1
          rw [hh] at hy
          right
          cases hw' : (w' : List Char) with
          | nil => exact absurd hw' (hW w' (by simp)).1
          | cons a as =>
            rw [hw'] at hy
            simp only [List.head?_cons, Option.mem_def, Option.some.injEq] at hy
            subst hy
            exact (hW w' (by simp)).2 a (by simp [hw'])
        · exact ih hWtail
      · intro x hx y hy
        left
        exact hw.2 x (List.mem_of_mem_getLast? hx)

theorem cleanShape_joinSpace {W : List (List Char)} (hW : WordsWF W) :
    cleanShape (joinSpace W) := by
  refine ⟨?_, ?_, joinSpace_chain hW⟩
  · intro c hc
    cases W with
    | nil => cases hc
    | cons w W' =>
      have hw := hW w (by simp)
      rw [joinSpace_head W' hw.1] at hc
      exact hw.2 c (List.mem_of_mem_head? hc)
  · intro c hc
    cases W with
    | nil => cases hc
    | cons w W' =>
      obtain ⟨c', hc', hcw⟩ := joinSpace_getLast hW (by simp)
      have heq := hc'.symm.trans hc
      injection heq with h
      rw [← h]
      exact hcw

/-! ## C10: clean_text is total, idempotent and normalising -/

/-- C10: `clean_text` is total and idempotent; `clean_text(None)` and
`clean_text` of a whitespace-only string both return the empty string; and
no result has leading, trailing or consecutive whitespace. -/
theorem clean_text_spec :
    (∀ t : String, clean_text (some (clean_text (some t))) = clean_text (some t)) ∧
    clean_text none = "" ∧
    (∀ t : String, (∀ c ∈ t.data, c.isWhitespace = true) → clean_text (some t) = "") ∧
    (∀ t : Option String, cleanShape (clean_text t).data) := by
  refine ⟨?_, rfl, ?_, ?_⟩
  · intro t
    by_cases ht : t = ""
    · subst ht
      simp [clean_text]
    · have hW : WordsWF (pySplit (pyStrip t.data)) := splitAux_wf [] (by simp)
      simp only [clean_text, if_neg ht]
      by_cases hr : (⟨joinSpace (pySplit (pyStrip t.data))⟩ : String) = ""
      · rw [if_pos hr]
        exact hr.symm
      · rw [if_neg hr]
        show String.mk (joinSpace (pySplit (pyStrip (joinSpace (pySplit (pyStrip t.data))))))
          = String.mk (joinSpace (pySplit (pyStrip t.data)))
        rw [pySplit_pyStrip, pySplit_joinSpace hW]
  · intro t ht
    by_cases h : t = ""
    · subst h
      simp [clean_text]
    · simp only [clean_text, if_neg h]
      have hempty : pySplit (pyStrip t.data) = [] := by
        rw [pySplit_pyStrip]
        exact (splitAux_all_ws ht []).trans rfl
      show String.mk (joinSpace (pySplit (pyStrip t.data))) = ""
      rw [hempty]
      rfl
  · intro t
    match t with
    | none =>
      unfold cleanShape
      refine ⟨fun c hc => ?_, fun c hc => ?_, ?_⟩
      · cases hc
      · cases hc
      · exact List.chain'_nil
    | some s =>
      by_cases h : s = ""
      · simp only [clean_text, if_pos h]
        unfold cleanShape
        refine ⟨fun c hc => ?_, fun c hc => ?_, ?_⟩
        · cases hc
        · cases hc
        · exact List.chain'_nil
      · simp only [clean_text, if_neg h]
        exact cleanShape_joinSpace (splitAux_wf [] (by simp))

/-- Witness for C10 at concrete strings. -/
theorem clean_text_spec_witness :
    clean_text (some (clean_text (some " a  b "))) = clean_text (some " a  b ") ∧
    ((∀ c ∈ ("  " : String).data, c.isWhitespace = true) ∧ clean_text (some "  ") = "") ∧
    cleanShape (clean_text (some " a  b ")).data :=
  ⟨clean_text_spec.1 " a  b ",
    ⟨by decide, clean_text_spec.2.2.1 "  " (by decide)⟩,
    clean_text_spec.2.2.2 (some " a  b ")⟩

/-! ## Parse-model lemmas -/

theorem seller_phone_update_url (l : CarListing) (p : String) :
    ({ l with seller_phone := p }).listing_url = l.listing_url := rfl

theorem listing_url_ite {c : Prop} [Decidable c] {x y : CarListing} {v : String}
    (hx : x.listing_url = v) (hy : y.listing_url = v) :
    (if c then x else y).listing_url = v := by
  split
  · exact hx
  · exact hy

theorem applyProp_listing_url (l : CarListing) (row : PropRow) :
    (applyProp l row).listing_url = l.listing_url := by
  unfold applyProp
  split
  · dsimp only
    repeat' first
      | rfl
      | refine listing_url_ite ?_ ?_
      | (split <;> try rfl)
  · rfl

theorem applyShopRow_listing_url (l : CarListing) (row : ShopRow) :
    (applyShopRow l row).listing_url = l.listing_url := by
  unfold applyShopRow
  dsimp only
  repeat' split <;> try rfl

theorem applyStat_listing_url (l : CarListing) (li : String) :
    (applyStat l li).listing_url = l.listing_url := by
  unfold applyStat
  dsimp only
  repeat' split <;> try rfl

theorem foldl_listing_url {α : Type} (f : CarListing → α → CarListing)
    (hf : ∀ l a, (f l a).listing_url = l.listing_url) :
    ∀ (rows : List α) (l : CarListing), (rows.foldl f l).listing_url = l.listing_url := by
  intro rows
  induction rows with
  | nil => intro l; rfl
  | cons r rows ih =>
    intro l
    rw [List.foldl_cons, ih, hf]

theorem parse_listing_page_url (m : Markup) (url : String) (b : Option Badges) (now : String) :
    (parse_listing_page m url b now).listing_url = url := by
  unfold parse_listing_page
  dsimp only
  repeat' split
  all_goals simp only [foldl_listing_url applyProp applyProp_listing_url,
    foldl_listing_url applyShopRow applyShopRow_listing_url,
    foldl_listing_url applyStat applyStat_listing_url]

/-! ## C8: parse failure yields a partial record, never discards the item -/

/-- C8: when the detail fetch succeeds and the stop flag is clear,
`scrape_listing` always returns a record (it never discards the item on a
markup mismatch, whatever the page's soup looks like), the record's url
being the item's; and on a page none of whose expected elements are found
(`emptyMarkup`), every parsed text field of the record is the empty string —
a partial record, not an error. -/
theorem scrape_listing_partial_record :
    (∀ (env : RunEnv) (it : Item) (s : RunState),
      env.stop s.clock = false → env.ok it.url = true →
      ∃ l, (scrape_listing env it s).1 = some l ∧ l.listing_url = it.url) ∧
    (∀ url b now,
      (parse_listing_page emptyMarkup url b now).title = "" ∧
      (parse_listing_page emptyMarkup url b now).price_azn = "" ∧
      (parse_listing_page emptyMarkup url b now).make = "" ∧
      (parse_listing_page emptyMarkup url b now).model = "" ∧
      (parse_listing_page emptyMarkup url b now).year = "" ∧
      (parse_listing_page emptyMarkup url b now).city = "" ∧
      (parse_listing_page emptyMarkup url b now).mileage = "" ∧
      (parse_listing_page emptyMarkup url b now).description = "" ∧
      (parse_listing_page emptyMarkup url b now).extras = "" ∧
      (parse_listing_page emptyMarkup url b now).seller_name = "" ∧
      (parse_listing_page emptyMarkup url b now).seller_phone = "" ∧
      (parse_listing_page emptyMarkup url b now).posted_date = "" ∧
      (parse_listing_page emptyMarkup url b now).updated_date = "" ∧
      (parse_listing_page emptyMarkup url b now).views = "" ∧
      (parse_listing_page emptyMarkup url b now).image_urls = "" ∧
      (parse_listing_page emptyMarkup url b now).listing_url = url ∧
      (parse_listing_page emptyMarkup url b now).listing_id = extract_listing_id url) := by
  constructor
  · intro env it s hstop hok
    unfold scrape_listing
    rw [if_neg (by rw [hstop]; exact Bool.false_ne_true), if_pos hok]
    refine ⟨_, rfl, ?_⟩
    refine listing_url_ite ?_ ?_
    · dsimp only
      refine listing_url_ite ?_ ?_
      · exact (seller_phone_update_url _ _).trans (parse_listing_page_url _ _ _ _)
      · exact parse_listing_page_url _ _ _ _
    · exact parse_listing_page_url _ _ _ _
  · intro url b now
    cases b <;>
      exact ⟨rfl, rfl, rfl, rfl, rfl, rfl, rfl, rfl, rfl, rfl, rfl, rfl, rfl, rfl, rfl,
        rfl, rfl⟩

/-- Witness for C8 at a concrete environment, item, and url. -/
theorem scrape_listing_partial_record_witness :
    (envOkEmpty.stop baseState.clock = false ∧ envOkEmpty.ok "u" = true) ∧
    (∃ l, (scrape_listing envOkEmpty ⟨"u", {}⟩ baseState).1 = some l ∧
      l.listing_url = "u") ∧
    (parse_listing_page emptyMarkup "https://turbo.az/autos/123-x" none "T").title = "" :=
  ⟨⟨rfl, rfl⟩,
    scrape_listing_partial_record.1 envOkEmpty ⟨"u", {}⟩ baseState rfl rfl,
    (scrape_listing_partial_record.2 "https://turbo.az/autos/123-x" none "T").1⟩

/-! ## Run-model lemmas -/

theorem contains_iff_mem_str (l : List String) (a : String) : l.contains a = true ↔ a ∈ l := by
  rw [List.contains]
  exact List.elem_iff

theorem initRun_history (file : Option (List Tok)) (backup : List CarListing) :
    (initRun file backup).2.history = [] := by
  unfold initRun
  split <;> rfl

theorem initRun_decode {ts : List Tok} {backup : List CarListing} {cp : Checkpoint}
    (h : decodeCheckpoint ts = some cp) :
    initRun (some ts) backup
      = (cp.pending_urls, ⟨cp.scraped_urls, backup, cp.pages_completed, some cp, [], 0⟩) := by
  simp [initRun, load_checkpoint, h]

theorem scrape_listing_cases (env : RunEnv) (it : Item) (s : RunState) :
    (scrape_listing env it s = (none, { s with clock := s.clock + 1 })) ∨
    (env.ok it.url = true ∧
      ∃ l, l.listing_url = it.url ∧
        scrape_listing env it s
          = (some l,
              { s with
                  clock := s.clock + 1
                  scraped_urls := insertUrl it.url s.scraped_urls })) := by
  unfold scrape_listing
  by_cases h1 : env.stop s.clock
  · left
    rw [if_pos h1]
  · rw [if_neg h1]
    dsimp only
    by_cases h2 : env.ok it.url
    · right
      rw [if_pos h2]
      refine ⟨h2, _, ?_, rfl⟩
      refine listing_url_ite ?_ ?_
      · dsimp only
        refine listing_url_ite ?_ ?_
        · exact (seller_phone_update_url _ _).trans (parse_listing_page_url _ _ _ _)
        · exact parse_listing_page_url _ _ _ _
      · exact parse_listing_page_url _ _ _ _
    · left
      rw [if_neg h2]

theorem scrape_listing_state (env : RunEnv) (it : Item) (s : RunState) :
    (scrape_listing env it s).2.scraped_listings = s.scraped_listings ∧
    (scrape_listing env it s).2.pages_completed = s.pages_completed ∧
    (scrape_listing env it s).2.file = s.file ∧
    (scrape_listing env it s).2.history = s.history := by
  rcases scrape_listing_cases env it s with h | ⟨_, l, _, h⟩ <;>
    rw [h] <;> exact ⟨rfl, rfl, rfl, rfl⟩

theorem scrape_listing_scraped_cases (env : RunEnv) (it : Item) (s : RunState) :
    ∀ u ∈ (scrape_listing env it s).2.scraped_urls, u ∈ s.scraped_urls ∨ u = it.url := by
  rcases scrape_listing_cases env it s with h | ⟨_, l, _, h⟩ <;> rw [h]
  · exact fun u hu => Or.inl hu
  · intro u hu
    dsimp only at hu
    unfold insertUrl at hu
    split at hu
    · exact Or.inl hu
    · rcases List.mem_append.mp hu with h | h
      · exact Or.inl h
      · simp only [List.mem_singleton] at h
        exact Or.inr h

theorem scrape_listing_not_ok (env : RunEnv) (it : Item) (s : RunState)
    (hok : env.ok it.url = false) :
    (scrape_listing env it s).1 = none := by
  rcases scrape_listing_cases env it s with h | ⟨h2, l, _, h⟩
  · rw [h]
  · rw [hok] at h2
    cases h2

theorem scrape_listing_none_scraped (env : RunEnv) (it : Item) (s : RunState)
    (h : (scrape_listing env it s).1 = none) :
    (scrape_listing env it s).2.scraped_urls = s.scraped_urls := by
  rcases scrape_listing_cases env it s with heq | ⟨_, l, _, heq⟩
  · rw [heq]
  · rw [heq] at h
    cases h

theorem scrape_listing_some_url {env : RunEnv} {it : Item} {s : RunState} {l : CarListing}
    (h : (scrape_listing env it s).1 = some l) : l.listing_url = it.url := by
  rcases scrape_listing_cases env it s with heq | ⟨_, l2, hurl, heq⟩
  · rw [heq] at h
    cases h
  · rw [heq] at h
    injection h with h
    rw [← h]
    exact hurl

theorem pageLoop_preserves (env : RunEnv) :
    ∀ (pages : List Nat) (all : List Item) (s : RunState),
      (pageLoop env pages all s).2.scraped_urls = s.scraped_urls ∧
      (pageLoop env pages all s).2.scraped_listings = s.scraped_listings := by
  intro pages
  induction pages with
  | nil => intro all s; exact ⟨rfl, rfl⟩
  | cons p ps ih =>
    intro all s
    unfold pageLoop
    split
    · exact ⟨rfl, rfl⟩
    · dsimp only
      split
      · exact ih all _
      · exact ih _ _

theorem pageLoop_skip_all (env : RunEnv) :
    ∀ (pages : List Nat) (all : List Item) (s : RunState),
      (∀ p ∈ pages, p ∈ s.pages_completed) →
      (pageLoop env pages all s).1 = all ∧
      (pageLoop env pages all s).2.history = s.history := by
  intro pages
  induction pages with
  | nil => intro all s _; exact ⟨rfl, rfl⟩
  | cons p ps ih =>
    intro all s hcomp
    unfold pageLoop
    split
    · exact ⟨rfl, rfl⟩
    · dsimp only
      rw [if_pos (hcomp p (by simp))]
      exact ih all _ fun q hq => hcomp q (by simp [hq])

theorem pageLoop_disjoint (env : RunEnv) :
    ∀ (pages : List Nat) (all : List Item) (s : RunState),
      (∀ u ∈ s.scraped_urls, u ∉ all.map Item.url) →
      (∀ p, ∀ it ∈ env.pageItems p, it.url ∉ s.scraped_urls) →
      (∀ cp ∈ s.history, ∀ u ∈ cp.scraped_urls, u ∉ cp.pending_urls.map Item.url) →
      (∀ cp ∈ (pageLoop env pages all s).2.history,
        ∀ u ∈ cp.scraped_urls, u ∉ cp.pending_urls.map Item.url) ∧
      (∀ u ∈ (pageLoop env pages all s).2.scraped_urls,
        u ∉ (pageLoop env pages all s).1.map Item.url) := by
  intro pages
  induction pages with
  | nil => intro all s hall hpage hist; exact ⟨hist, hall⟩
  | cons p ps ih =>
    intro all s hall hpage hist
    unfold pageLoop
    split
    · exact ⟨hist, hall⟩
    · dsimp only
      split
      · exact ih all _ hall hpage hist
      · have hall2 : ∀ u ∈ s.scraped_urls, u ∉ (all ++ env.pageItems p).map Item.url := by
          intro u hu hmem
          rw [List.map_append, List.mem_append] at hmem
          rcases hmem with h | h
          · exact hall u hu h
          · obtain ⟨it, hit, hurl⟩ := List.mem_map.mp h
            rw [← hurl] at hu
            exact hpage p it hit hu
        refine ih _ _ hall2 hpage ?_
        intro cp hcp
        unfold save_checkpoint at hcp
        dsimp only at hcp
        rw [List.mem_append] at hcp
        rcases hcp with h | h
        · exact hist cp h
        · simp only [List.mem_singleton] at h
          subst h
          exact hall2

theorem not_mem_insertUrl {u v : String} {l : List String} (hne : u ≠ v) (hl : u ∉ l) :
    u ∉ insertUrl v l := by
  unfold insertUrl
  split
  · exact hl
  · intro hmem
    rcases List.mem_append.mp hmem with h | h
    · exact hl h
    · simp only [List.mem_singleton] at h
      exact hne h

theorem itemLoop_failed (env : RunEnv) (u : String)
    (hstop : ∀ t, env.stop t = false) (hok : env.ok u = false)
    (full : List Item) (interval : Nat) :
    ∀ (rest : List Item) (idx : Nat) (s : RunState),
      u ∉ s.scraped_urls →
      (∀ l ∈ s.scraped_listings, l.listing_url ≠ u) →
      u ∉ (itemLoop env full interval rest idx s).scraped_urls ∧
      ∀ l ∈ (itemLoop env full interval rest idx s).scraped_listings, l.listing_url ≠ u := by
  intro rest
  induction rest with
  | nil => intro idx s h1 h2; exact ⟨h1, h2⟩
  | cons it rest ih =>
    intro idx s h1 h2
    unfold itemLoop
    rw [if_neg (by rw [hstop]; exact Bool.false_ne_true)]
    dsimp only
    rcases scrape_listing_cases env it { s with clock := s.clock + 1 } with heq | ⟨hok2, l, hurl, heq⟩
    · rw [heq]
      dsimp only
      split
      · exact ih (idx + 1) _ h1 h2
      · exact ih (idx + 1) _ h1 h2
    · have hne : u ≠ it.url := by
        intro h
        rw [← h] at hok2
        rw [hok] at hok2
        cases hok2
      rw [heq]
      dsimp only
      have h1' : u ∉ insertUrl it.url s.scraped_urls := not_mem_insertUrl hne h1
      have h2' : ∀ l' ∈ s.scraped_listings ++ [l], l'.listing_url ≠ u := by
        intro l' hl'
        rcases List.mem_append.mp hl' with h | h
        · exact h2 l' h
        · simp only [List.mem_singleton] at h
          subst h
          rw [hurl]
          exact fun hh => hne hh.symm
      split
      · exact ih (idx + 1) _ h1' h2'
      · exact ih (idx + 1) _ h1' h2'

theorem itemLoop_disjoint (env : RunEnv) (full : List Item) (interval : Nat)
    (hnodup : (full.map Item.url).Nodup) :
    ∀ (rest : List Item) (idx : Nat) (s : RunState),
      1 ≤ idx → full.drop (idx - 1) = rest →
      (∀ u ∈ s.scraped_urls, u ∉ (full.drop (idx - 1)).map Item.url) →
      (∀ cp ∈ s.history, ∀ u ∈ cp.scraped_urls, u ∉ cp.pending_urls.map Item.url) →
      ∀ cp ∈ (itemLoop env full interval rest idx s).history,
        ∀ u ∈ cp.scraped_urls, u ∉ cp.pending_urls.map Item.url := by
  intro rest
  induction rest with
  | nil => intro idx s _ _ _ hist; exact hist
  | cons it rest ih =>
    intro idx s hidx hrest hinv hist
    have hdrop : full.drop idx = rest := by
      have h1 : full.drop idx = (full.drop (idx - 1)).drop 1 := by
        rw [List.drop_drop]
        congr 1
        omega
      rw [h1, hrest]
      rfl
    have hcons : (full.drop (idx - 1)).map Item.url = it.url :: rest.map Item.url := by
      rw [hrest]
      rfl
    have hnd : it.url ∉ rest.map Item.url := by
      have hsub : ((full.drop (idx - 1)).map Item.url).Nodup := by
        rw [List.map_drop]
        exact (List.drop_sublist _ _).nodup hnodup
      rw [hcons] at hsub
      exact (List.nodup_cons.mp hsub).1
    unfold itemLoop
    split
    · exact hist
    · dsimp only
      rcases scrape_listing_cases env it { s with clock := s.clock + 1 }
        with heq | ⟨hok2, l, hurl, heq⟩
      · have hinv' : ∀ u ∈ s.scraped_urls, u ∉ (full.drop idx).map Item.url := by
          intro u hu hmem
          rw [hdrop] at hmem
          exact hinv u hu (by rw [hcons]; exact List.mem_cons_of_mem _ hmem)
        rw [heq]
        dsimp only
        split
        · refine ih (idx + 1) _ (by omega) (by simpa using hdrop) (by simpa using hinv') ?_
          intro cp hcp
          unfold save_checkpoint at hcp
          dsimp only at hcp
          rcases List.mem_append.mp hcp with h | h
          · exact hist cp h
          · simp only [List.mem_singleton] at h
            subst h
            exact hinv'
        · exact ih (idx + 1) _ (by omega) (by simpa using hdrop) (by simpa using hinv') hist
      · have hinv' : ∀ u ∈ insertUrl it.url s.scraped_urls,
            u ∉ (full.drop idx).map Item.url := by
          intro u hu hmem
          rw [hdrop] at hmem
          have hu' : u ∈ s.scraped_urls ∨ u = it.url := by
            unfold insertUrl at hu
            split at hu
            · exact Or.inl hu
            · rcases List.mem_append.mp hu with h | h
              · exact Or.inl h
              · simp only [List.mem_singleton] at h
                exact Or.inr h
          rcases hu' with h | h
          · exact hinv u h (by rw [hcons]; exact List.mem_cons_of_mem _ hmem)
          · rw [h] at hmem
            exact hnd hmem
        rw [heq]
        dsimp only
        split
        · refine ih (idx + 1) _ (by omega) (by simpa using hdrop) (by simpa using hinv') ?_
          intro cp hcp
          unfold save_checkpoint at hcp
          dsimp only at hcp
          rcases List.mem_append.mp hcp with h | h
          · exact hist cp h
          · simp only [List.mem_singleton] at h
            subst h
            exact hinv'
        · exact ih (idx + 1) _ (by omega) (by simpa using hdrop) (by simpa using hinv') hist

theorem afterPages_none (env : RunEnv) (sp ep : Nat) :
    (afterPages env sp ep none []).2.scraped_urls = [] ∧
    (afterPages env sp ep none []).2.scraped_listings = [] := by
  unfold afterPages
  dsimp only
  have h := pageLoop_preserves env (List.range' sp (ep + 1 - sp))
    (initRun none []).1 (initRun none []).2
  exact ⟨h.1.trans rfl, h.2.trans rfl⟩

/-! ## C1: a terminally-failed item is not retained as pending -/

/-- C1 (amended): if an item's detail fetch fails on every retry attempt,
the item yields no record (nothing with its url enters `scraped_listings`)
and its url is never added to `scraped_urls`; but the run does not leave it
in the checkpoint's pending list — a run that completes without
interruption deletes the checkpoint file entirely.  What does hold for a
subsequent run resumed from a checkpoint: no identifier recorded in the
checkpoint's `scraped_urls` is ever re-attempted, and when every page in
range is already completed the work list is exactly the checkpoint's
pending items not yet scraped — so a failed item is retried on the next
invocation only if some mid-run checkpoint still listing it as pending
survives (i.e. the previous run crashed before its final checkpoint
handling). -/
theorem failed_item_amended (env : RunEnv) (sp ep interval : Nat) (u : String)
    (hstop : ∀ t, env.stop t = false) (hok : env.ok u = false) :
    (u ∉ (scrape_all_pages env sp ep interval none []).scraped_urls ∧
      (∀ l ∈ (scrape_all_pages env sp ep interval none []).scraped_listings,
        l.listing_url ≠ u) ∧
      (scrape_all_pages env sp ep interval none []).file = none) ∧
    (∀ (ts : List Tok) (backup : List CarListing) (cp : Checkpoint),
      decodeCheckpoint ts = some cp →
      ∀ it ∈ dataToScrape env sp ep (some ts) backup, it.url ∉ cp.scraped_urls) ∧
    (∀ (ts : List Tok) (backup : List CarListing) (cp : Checkpoint),
      decodeCheckpoint ts = some cp →
      (∀ p ∈ List.range' sp (ep + 1 - sp), p ∈ cp.pages_completed) →
      dataToScrape env sp ep (some ts) backup
        = cp.pending_urls.filter fun it => !(cp.scraped_urls.contains it.url)) := by
  refine ⟨?_, ?_, ?_⟩
  · have h := itemLoop_failed env u hstop hok
      ((afterPages env sp ep none []).1.filter
        fun it => !((afterPages env sp ep none []).2.scraped_urls.contains it.url))
      interval
      ((afterPages env sp ep none []).1.filter
        fun it => !((afterPages env sp ep none []).2.scraped_urls.contains it.url))
      1 (afterPages env sp ep none []).2
      (by rw [(afterPages_none env sp ep).1]; exact List.not_mem_nil u)
      (by
        rw [(afterPages_none env sp ep).2]
        intro l hl
        cases hl)
    unfold scrape_all_pages
    dsimp only
    rw [if_neg (by rw [hstop]; exact Bool.false_ne_true)]
    exact ⟨h.1, h.2, rfl⟩
  · intro ts backup cp hdec it hit hmem2
    unfold dataToScrape at hit
    dsimp only at hit
    rw [List.mem_filter] at hit
    obtain ⟨hmem, hcond⟩ := hit
    have hscr : (afterPages env sp ep (some ts) backup).2.scraped_urls
        = cp.scraped_urls := by
      unfold afterPages
      rw [initRun_decode hdec]
      dsimp only
      exact (pageLoop_preserves env _ _ _).1
    rw [hscr] at hcond
    rw [Bool.not_eq_true'] at hcond
    rw [← contains_iff_mem_str] at hmem2
    rw [hcond] at hmem2
    cases hmem2
  · intro ts backup cp hdec hcomp
    unfold dataToScrape afterPages
    rw [initRun_decode hdec]
    dsimp only
    have hskip := pageLoop_skip_all env (List.range' sp (ep + 1 - sp)) cp.pending_urls
      ⟨cp.scraped_urls, backup, cp.pages_completed, some cp, [], 0⟩ hcomp
    have hpres := pageLoop_preserves env (List.range' sp (ep + 1 - sp)) cp.pending_urls
      ⟨cp.scraped_urls, backup, cp.pages_completed, some cp, [], 0⟩
    simp only [hskip.1, hpres.1]

/-- C1 counterexample: page 1 discovers the single item `"X"`, whose detail
fetch fails on every attempt, and the run is never interrupted; the claim
says `"X"` then remains in `pending_items` of the saved checkpoint, but the
run ends by clearing the checkpoint file entirely, so no saved checkpoint
lists `"X"` as pending. -/
theorem failed_item_counterexample :
    ¬ ∃ cp, (scrape_all_pages envFailX 1 1 10 none []).file = some cp ∧
        "X" ∈ cp.pending_urls.map Item.url := by
  intro h
  obtain ⟨cp, hcp, _⟩ := h
  have hnone : (scrape_all_pages envFailX 1 1 10 none []).file = none := by decide
  rw [hnone] at hcp
  cases hcp

/-- Witness for C1 (amended) at the concrete environment `envFailX` and at a
concrete resumed run. -/
theorem failed_item_amended_witness :
    ((∀ t, envFailX.stop t = false) ∧ envFailX.ok "X" = false) ∧
    ("X" ∉ (scrape_all_pages envFailX 1 1 10 none []).scraped_urls ∧
      (scrape_all_pages envFailX 1 1 10 none []).file = none) ∧
    (decodeCheckpoint (encodeCheckpoint cpScrapedU1) = some cpScrapedU1 ∧
      ∀ it ∈ dataToScrape envFailX 1 1 (some (encodeCheckpoint cpScrapedU1)) [],
        it.url ∉ cpScrapedU1.scraped_urls) := by
  have h := failed_item_amended envFailX 1 1 10 "X" (fun t => rfl) rfl
  exact ⟨⟨fun t => rfl, rfl⟩, ⟨h.1.1, h.1.2.2⟩,
    ⟨by decide, h.2.1 (encodeCheckpoint cpScrapedU1) [] cpScrapedU1 (by decide)⟩⟩

/-! ## C3: checkpoints can list a scraped identifier as pending -/

/-- C3 (amended): every checkpoint written during a run keeps
`scraped_urls` and `pending_urls` disjoint PROVIDED (a) the loaded pending
list contains no already-scraped url, (b) no page (re-)discovers an
already-scraped url, and (c) the filtered work list has pairwise-distinct
urls.  Without these assumptions the claim fails: page-discovery
checkpoints store the *unfiltered* `all_listing_data` (filtering against
`scraped_urls` happens only once, after the page loop), so a resumed run
that re-discovers an already-scraped url writes a checkpoint listing it
both as scraped and as pending (see the counterexample). -/
theorem checkpoint_disjoint_amended (env : RunEnv) (sp ep interval : Nat)
    (file : Option (List Tok)) (backup : List CarListing)
    (hpend : ∀ it ∈ (initRun file backup).1, it.url ∉ (initRun file backup).2.scraped_urls)
    (hpage : ∀ p, ∀ it ∈ env.pageItems p, it.url ∉ (initRun file backup).2.scraped_urls)
    (hnodup : ((dataToScrape env sp ep file backup).map Item.url).Nodup) :
    ∀ cp ∈ (scrape_all_pages env sp ep interval file backup).history,
      ∀ u, u ∈ cp.scraped_urls → u ∉ cp.pending_urls.map Item.url := by
  have hinit_hist : ∀ cp ∈ (initRun file backup).2.history,
      ∀ u ∈ cp.scraped_urls, u ∉ cp.pending_urls.map Item.url := by
    rw [initRun_history]
    intro cp hcp
    cases hcp
  have hall0 : ∀ u ∈ (initRun file backup).2.scraped_urls,
      u ∉ (initRun file backup).1.map Item.url := by
    intro u hu hmem
    obtain ⟨it, hit, hurl⟩ := List.mem_map.mp hmem
    rw [← hurl] at hu
    exact hpend it hit hu
  have hpg := pageLoop_disjoint env (List.range' sp (ep + 1 - sp))
    (initRun file backup).1 (initRun file backup).2 hall0 hpage hinit_hist
  have hAP : afterPages env sp ep file backup
      = pageLoop env (List.range' sp (ep + 1 - sp))
          (initRun file backup).1 (initRun file backup).2 := rfl
  have hscrdts : ∀ u ∈ (afterPages env sp ep file backup).2.scraped_urls,
      u ∉ ((afterPages env sp ep file backup).1.filter
        fun it => !((afterPages env sp ep file backup).2.scraped_urls.contains it.url)).map
          Item.url := by
    intro u hu hmem
    obtain ⟨it, hit, hurl⟩ := List.mem_map.mp hmem
    rw [List.mem_filter] at hit
    obtain ⟨_, hcond⟩ := hit
    rw [Bool.not_eq_true'] at hcond
    rw [← hurl] at hu
    rw [← contains_iff_mem_str] at hu
    rw [hcond] at hu
    cases hu
  have hnodup' : (((afterPages env sp ep file backup).1.filter
      fun it => !((afterPages env sp ep file backup).2.scraped_urls.contains it.url)).map
        Item.url).Nodup := hnodup
  have hItem := itemLoop_disjoint env
    ((afterPages env sp ep file backup).1.filter
      fun it => !((afterPages env sp ep file backup).2.scraped_urls.contains it.url))
    interval hnodup'
    ((afterPages env sp ep file backup).1.filter
      fun it => !((afterPages env sp ep file backup).2.scraped_urls.contains it.url))
    1 (afterPages env sp ep file backup).2
    (by omega) (by rw [List.drop_zero]) (by rw [List.drop_zero]; exact hscrdts)
    (by rw [hAP]; exact hpg.1)
  intro cp hcp
  unfold scrape_all_pages at hcp
  dsimp only at hcp
  split at hcp
  · unfold save_checkpoint at hcp
    dsimp only at hcp
    rcases List.mem_append.mp hcp with h | h
    · exact fun u hu => hItem cp h u hu
    · simp only [List.mem_singleton] at h
      subst h
      intro u hu hmem
      cases hmem
  · exact fun u hu => hItem cp hcp u hu

/-- C3 counterexample: resume from a checkpoint recording url `"u1"` as
scraped; page 1 (re-)discovers `"u1"`; the checkpoint written after page 1
lists `"u1"` both in `scraped_urls` and in `pending_urls` — the claimed
per-checkpoint disjointness is false. -/
theorem checkpoint_disjoint_counterexample :
    ¬ ∀ cp ∈ (scrape_all_pages envRediscover 1 1 10
        (some (encodeCheckpoint cpScrapedU1)) []).history,
      ∀ u, u ∈ cp.scraped_urls → u ∉ cp.pending_urls.map Item.url := by
  intro h
  have h1 := h ⟨["u1"], [⟨"u1", {}⟩], [1], 0⟩ (by decide) "u1" (by decide)
  exact h1 (by decide)

/-- Witness for C3 (amended): a fresh run of the all-empty environment
satisfies the hypotheses, and every checkpoint it writes is disjoint. -/
theorem checkpoint_disjoint_amended_witness :
    ((∀ it ∈ (initRun none []).1, it.url ∉ (initRun none []).2.scraped_urls) ∧
      (∀ p, ∀ it ∈ envOkEmpty.pageItems p, it.url ∉ (initRun none []).2.scraped_urls) ∧
      ((dataToScrape envOkEmpty 1 2 none []).map Item.url).Nodup) ∧
    ∀ cp ∈ (scrape_all_pages envOkEmpty 1 2 10 none []).history,
      ∀ u, u ∈ cp.scraped_urls → u ∉ cp.pending_urls.map Item.url :=
  ⟨⟨fun it hit => absurd hit (List.not_mem_nil it),
      fun p it hit => absurd hit (List.not_mem_nil it),
      by decide⟩,
    checkpoint_disjoint_amended envOkEmpty 1 2 10 none []
      (fun it hit => absurd hit (List.not_mem_nil it))
      (fun p it hit => absurd hit (List.not_mem_nil it))
      (by decide)⟩

end TurboAz
